import Mathlib

/-!
Verification of the provider-abstraction core of a multi-provider LLM CLI.

The development shallowly embeds the OpenAI-family adapter
(`packages/core/src/providers/adapters/openai/adapter.ts`, tool-calling
version of the class) and the configuration-driven base adapter
(`BaseAdapter`: `deepMerge`, `getModelConfig`, `getRequestHeaders`).

Modelling conventions:
* JavaScript runtime values that flow through dynamically-typed code are
  embedded as the inductive `JValue`; JS numbers are idealised as rationals
  (the claims under verification are structural, not about float rounding).
* JS objects are association lists in insertion order; property assignment
  (`o[k] = v`) replaces the first binding in place or appends a new one,
  which matches JS property-order semantics (`setAssoc`).
* `console.error` / `console.warn` calls are modelled by returning a list of
  log messages alongside the result.
* `JSON.parse` / `JSON.stringify` / `Number(...)` / `parseInt(...,10)` are
  modelled on the fragment of inputs the adapter can meet in practice:
  decimal numeric literals without exponents, strings without `\u` escapes.
  Inputs outside that fragment are treated as unparseable.
-/

/-- Embedded JavaScript/JSON runtime value. -/
inductive JValue where
  | null : JValue
  | bool (b : Bool) : JValue
  | num (q : ℚ) : JValue
  | str (s : String) : JValue
  | arr (elems : List JValue) : JValue
  | obj (fields : List (String × JValue)) : JValue

/-- Truthiness of a JS value (`if (v)`).  `NaN` and `undefined` do not occur
in the embedded fragment; objects and arrays are always truthy. -/
def jsTruthy : JValue → Bool
  | .null => false
  | .bool b => b
  | .num q => q != 0
  | .str s => s != ""
  | .arr _ => true
  | .obj _ => true

/-- Truthiness of an optional string (`if (s)` where `s` may be undefined). -/
def truthyStr : Option String → Bool
  | some s => s != ""
  | none => false

/-- First binding of a key in a JS object, `undefined` when absent. -/
def lookupAssoc {β : Type} : List (String × β) → String → Option β
  | [], _ => none
  | (k', v) :: rest, k => if k' = k then some v else lookupAssoc rest k

/-- First binding of an integer key in a JS `Map`. -/
def lookupAssocI {β : Type} : List (Int × β) → Int → Option β
  | [], _ => none
  | (k', v) :: rest, k => if k' = k then some v else lookupAssocI rest k

/-- JS property assignment `o[k] = v`: replace the first binding in place,
or append when the key is new (insertion order is preserved). -/
def setAssoc {β : Type} : List (String × β) → String → β → List (String × β)
  | [], k, v => [(k, v)]
  | (k', v') :: rest, k, v =>
      if k' = k then (k, v) :: rest else (k', v') :: setAssoc rest k v

/-- JS `Map.set` for integer keys (same replace-or-append discipline). -/
def setAssocI {β : Type} : List (Int × β) → Int → β → List (Int × β)
  | [], k, v => [(k, v)]
  | (k', v') :: rest, k, v =>
      if k' = k then (k, v) :: rest else (k', v') :: setAssocI rest k v

/-- Left brace character (written via its code point; it only ever occurs as
text inside produced JSON). -/
def lbrace : Char := Char.ofNat 123

/-- Right brace character. -/
def rbrace : Char := Char.ofNat 125

/-- Decimal digit test. -/
def isDigitCh (c : Char) : Bool := '0' ≤ c && c ≤ '9'

/-- Leading run of decimal digits of a character list, and the remainder. -/
def takeDigits : List Char → List Char × List Char
  | [] => ([], [])
  | c :: cs =>
      if isDigitCh c then
        let (ds, rest) := takeDigits cs
        (c :: ds, rest)
      else ([], c :: cs)

/-- Numeric value of a digit run. -/
def digitsToNat (ds : List Char) : Nat :=
  ds.foldl (fun n c => 10 * n + (c.toNat - '0'.toNat)) 0

/-- Model of JS `Number(s)` on the embedded fragment: an optional sign
followed by at least one digit and an optional fractional part.  `none`
plays the role of `NaN`.  (JS also accepts `""` as `0`, hex literals and
exponents; those inputs lie outside the modelled fragment.) -/
def jsNumberOfString (s : String) : Option ℚ :=
  let (sign, cs) :=
    match s.data with
    | '-' :: rest => ((-1 : ℚ), rest)
    | '+' :: rest => ((1 : ℚ), rest)
    | cs => ((1 : ℚ), cs)
  let (ds, rest) := takeDigits cs
  if ds = [] then none
  else
    match rest with
    | [] => some (sign * (digitsToNat ds : ℚ))
    | '.' :: fs =>
        let (fds, rest2) := takeDigits fs
        if rest2 = [] then
          some (sign * ((digitsToNat ds : ℚ) +
            (digitsToNat fds : ℚ) / ((10 : ℚ) ^ fds.length)))
        else none
    | _ => none

/-- Model of JS `parseInt(s, 10)` on the embedded fragment: an optional sign
followed by a leading digit run; trailing characters are ignored.  `none`
plays the role of `NaN`. -/
def jsParseIntOfString (s : String) : Option Int :=
  let (sign, cs) :=
    match s.data with
    | '-' :: rest => ((-1 : Int), rest)
    | '+' :: rest => ((1 : Int), rest)
    | cs => ((1 : Int), cs)
  let (ds, _) := takeDigits cs
  if ds = [] then none else some (sign * (digitsToNat ds : Int))

/-- Replace the first occurrence of `pat` in `s` (character-list worker).
JS `String.replace` with a string pattern replaces only the first match; an
empty pattern matches at the start. -/
def replaceFirstChars (s pat repl : List Char) : List Char :=
  match s with
  | [] => if pat = [] then repl else []
  | c :: rest =>
      if pat.isPrefixOf (c :: rest) then repl ++ (c :: rest).drop pat.length
      else c :: replaceFirstChars rest pat repl

/-- Model of JS `s.replace(pat, repl)` for plain string patterns (the
substituted values met here contain no `$`-special replacement sequences). -/
def jsReplaceFirst (s pat repl : String) : String :=
  ⟨replaceFirstChars s.data pat.data repl.data⟩

/-- ASCII lower-casing of one character (JS `toLowerCase` on the ASCII
strings the schemas use). -/
def asciiLowerChar (c : Char) : Char :=
  if 'A' ≤ c && c ≤ 'Z' then Char.ofNat (c.toNat + 32) else c

/-- ASCII lower-casing of a string. -/
def asciiLower (s : String) : String := ⟨s.data.map asciiLowerChar⟩

/-- Character-level model of `s.startsWith(p)`. -/
def strStartsWith (s p : String) : Bool := p.data.isPrefixOf s.data

/-- Character-level model of `s.slice(n)` / `s.substring(n)`. -/
def strDrop (s : String) (n : Nat) : String := ⟨s.data.drop n⟩

/-- String consisting of a single left brace. -/
def lbraceS : String := String.singleton lbrace

/-- String consisting of a single right brace. -/
def rbraceS : String := String.singleton rbrace

/-- Escape of one character inside a serialized JSON string.  Control
characters other than the common named escapes do not occur in the
modelled fragment. -/
def escapeJsonChar (c : Char) : String :=
  if c = '"' then "\\\""
  else if c = '\\' then "\\\\"
  else if c = '\n' then "\\n"
  else if c = '\t' then "\\t"
  else if c = '\r' then "\\r"
  else String.singleton c

/-- Serialized JSON string literal. -/
def jsonQuote (s : String) : String :=
  "\"" ++ String.join (s.data.map escapeJsonChar) ++ "\""

/-- Rendering of an embedded number.  All numbers serialized by the claims
under study are integers; non-integral rationals take an exact
numerator-slash-denominator rendering (an idealisation of JS float
printing). -/
def jsonNumRepr (q : ℚ) : String :=
  if q.den = 1 then toString q.num else toString q.num ++ "/" ++ toString q.den

mutual

/-- Model of `JSON.stringify` (no pretty-printing, like the adapter uses). -/
def jsonStringify : JValue → String
  | .null => "null"
  | .bool true => "true"
  | .bool false => "false"
  | .num q => jsonNumRepr q
  | .str s => jsonQuote s
  | .arr xs => "[" ++ jsonStringifyList xs ++ "]"
  | .obj fs => lbraceS ++ jsonStringifyFields fs ++ rbraceS

/-- Comma-separated serialization of array elements. -/
def jsonStringifyList : List JValue → String
  | [] => ""
  | [v] => jsonStringify v
  | v :: vs => jsonStringify v ++ "," ++ jsonStringifyList vs

/-- Comma-separated serialization of object fields. -/
def jsonStringifyFields : List (String × JValue) → String
  | [] => ""
  | [(k, v)] => jsonQuote k ++ ":" ++ jsonStringify v
  | (k, v) :: fs => jsonQuote k ++ ":" ++ jsonStringify v ++ "," ++ jsonStringifyFields fs

end

/-!
Layered config resolver (`BaseAdapter` in the providers module).
-/

/-- Source `BaseAdapter.deepMerge`, restricted to the object arguments the
code ever passes (the top-level call merges two config objects and the
recursive case fires only when both sides are non-array objects).  The
source walks the own keys of `source` in order; for each key it deep-merges
when both values are non-array objects, copies the array when the source
value is an array, and otherwise overwrites. -/
def deepMerge : List (String × JValue) → List (String × JValue) → List (String × JValue)
  | result, [] => result
  | result, (key, JValue.obj sfs) :: rest =>
      (match lookupAssoc result key with
       | some (JValue.obj tfs) => deepMerge (setAssoc result key (JValue.obj (deepMerge tfs sfs))) rest
       | _ => deepMerge (setAssoc result key (JValue.obj sfs)) rest)
  | result, (key, JValue.arr xs) :: rest =>
      deepMerge (setAssoc result key (JValue.arr xs)) rest
  | result, (key, sv) :: rest =>
      deepMerge (setAssoc result key sv) rest
termination_by _ s => sizeOf s
decreasing_by all_goals (simp_wf; try omega)

/-- Adapter descriptor (the fields the verified operations read).  A
default-model entry is a JS config object. -/
structure AdapterConfig where
  defaultModels : List (String × List (String × JValue))
  /-- The `requestHeaders.required` header map; values may contain the
  template placeholder for the api key. -/
  requiredHeaders : List (String × String)

/-- User provider record (the fields the verified operations read). -/
structure UserProviderConfig where
  apiKey : String
  models : List String
  /-- Per-model override objects (`modelOverrides?.[modelId]`). -/
  modelOverrides : List (String × List (String × JValue))

/-- Source `BaseAdapter.getModelConfig`: look up the default model config;
`null` when absent; otherwise deep-merge with the user override (or the
empty object when the user supplies none). -/
def getModelConfig (adapterConfig : AdapterConfig) (userConfig : UserProviderConfig)
    (modelId : String) : Option (List (String × JValue)) :=
  match lookupAssoc adapterConfig.defaultModels modelId with
  | none => none
  | some defaultConfig =>
      some (deepMerge defaultConfig
        ((lookupAssoc userConfig.modelOverrides modelId).getD []))

/-- The `\x7bapiKey\x7d` template placeholder used in descriptor header
values. -/
def apiKeyPlaceholder : String := lbraceS ++ "apiKey" ++ rbraceS

/-- Api-key resolution step of `BaseAdapter.getRequestHeaders`: when the
configured key starts with `$`, the remainder names an environment
variable; a present, non-empty value replaces the key, otherwise a warning
is logged and the raw configured value is kept.  Returns the resolved key
and whether the warning fired. -/
def resolveApiKey (env : String → Option String) (apiKey : String) : String × Bool :=
  if apiKey != "" && strStartsWith apiKey "$" then
    let envVarName := strDrop apiKey 1
    match env envVarName with
    | some envValue => if envValue != "" then (envValue, false) else (apiKey, true)
    | none => (apiKey, true)
  else (apiKey, false)

/-- Source `BaseAdapter.getRequestHeaders`.  `env` models `process.env`;
`required` is `adapterConfig.requestHeaders.required`; `customHeaders` is
the already-resolved `getConfigValue('customHeaders', ...)` object.
Returns the header map and the list of env-var names warned about. -/
def getRequestHeaders (env : String → Option String)
    (required : List (String × String)) (apiKey : String)
    (customHeaders : List (String × String)) :
    List (String × String) × List String :=
  let init : List (String × String) := [("Content-Type", "application/json")]
  let step := fun (acc : List (String × String) × List String)
      (kv : String × String) =>
    let (resolved, warned) := resolveApiKey env apiKey
    (setAssoc acc.1 kv.1 (jsReplaceFirst kv.2 apiKeyPlaceholder resolved),
     if warned then acc.2 ++ [strDrop apiKey 1] else acc.2)
  let (headers, warns) := required.foldl step (init, [])
  (customHeaders.foldl (fun hs kv => setAssoc hs kv.1 kv.2) headers, warns)

/-!
Model of `JSON.parse` on the embedded fragment (strict JSON without
exponents and without `\u` escapes; such payloads are treated as
unparseable).  The parsers are fuelled to make them structurally
recursive; the fuel chosen by `jsonParse` dominates every parse.
-/

/-- JSON whitespace. -/
def isJsonWs (c : Char) : Bool := c = ' ' || c = '\t' || c = '\n' || c = '\r'

/-- Skip leading JSON whitespace. -/
def skipWs : List Char → List Char
  | [] => []
  | c :: cs => if isJsonWs c then skipWs cs else c :: cs

/-- Parse the body of a JSON string literal (after the opening quote);
returns the decoded characters and the remainder after the closing quote. -/
def parseStrBody : List Char → Option (List Char × List Char)
  | [] => none
  | c :: cs =>
      if c = '"' then some ([], cs)
      else if c = '\\' then
        match cs with
        | [] => none
        | e :: rest =>
            let esc : Option Char :=
              if e = '"' then some '"'
              else if e = '\\' then some '\\'
              else if e = '/' then some '/'
              else if e = 'n' then some '\n'
              else if e = 't' then some '\t'
              else if e = 'r' then some '\r'
              else if e = 'b' then some (Char.ofNat 8)
              else if e = 'f' then some (Char.ofNat 12)
              else none
            match esc with
            | some ec => (parseStrBody rest).map (fun sr => (ec :: sr.1, sr.2))
            | none => none
      else if c.toNat < 32 then none
      else (parseStrBody cs).map (fun sr => (c :: sr.1, sr.2))

/-- Signed integral value of a digit run. -/
def signedIntVal (neg : Bool) (ds : List Char) : ℚ :=
  if neg then -((digitsToNat ds : ℚ)) else (digitsToNat ds : ℚ)

/-- Signed value of an integral digit run with a fractional digit run. -/
def signedFracVal (neg : Bool) (ds fds : List Char) : ℚ :=
  let m := (digitsToNat ds : ℚ) + (digitsToNat fds : ℚ) / ((10 : ℚ) ^ fds.length)
  if neg then -m else m

/-- Parse a JSON number (optional minus, integer part without redundant
leading zeros, optional fraction). -/
def parseJsonNumber (cs : List Char) : Option (JValue × List Char) :=
  let (neg, cs1) := match cs with
    | '-' :: r => (true, r)
    | _ => (false, cs)
  let (ds, rest) := takeDigits cs1
  match ds with
  | [] => none
  | d :: ds' =>
      if d = '0' && !ds'.isEmpty then none
      else
        match rest with
        | '.' :: fs =>
            let (fds, rest2) := takeDigits fs
            if fds.isEmpty then none
            else some (.num (signedFracVal neg ds fds), rest2)
        | _ => some (.num (signedIntVal neg ds), rest)

/-- JS object construction from parsed members: later duplicate keys
overwrite earlier ones in place, as JS property assignment does. -/
def objFromMembers (fs : List (String × JValue)) : List (String × JValue) :=
  fs.foldl (fun o kv => setAssoc o kv.1 kv.2) []

mutual

/-- Parse one JSON value. -/
def parseJsonValue : Nat → List Char → Option (JValue × List Char)
  | 0, _ => none
  | Nat.succ fuel, cs =>
      match skipWs cs with
      | [] => none
      | c :: rest =>
          if c = 'n' then
            match rest with
            | 'u' :: 'l' :: 'l' :: r => some (.null, r)
            | _ => none
          else if c = 't' then
            match rest with
            | 'r' :: 'u' :: 'e' :: r => some (.bool true, r)
            | _ => none
          else if c = 'f' then
            match rest with
            | 'a' :: 'l' :: 's' :: 'e' :: r => some (.bool false, r)
            | _ => none
          else if c = '"' then
            (parseStrBody rest).map (fun sr => (.str ⟨sr.1⟩, sr.2))
          else if c = '[' then
            match skipWs rest with
            | ']' :: r => some (.arr [], r)
            | cs2 => (parseJsonItems fuel cs2).map (fun vr => (.arr vr.1, vr.2))
          else if c = lbrace then
            match skipWs rest with
            | [] => none
            | c2 :: r1 =>
                if c2 = rbrace then some (.obj [], r1)
                else
                  (parseJsonMembers fuel (c2 :: r1)).map
                    (fun fr => (.obj (objFromMembers fr.1), fr.2))
          else parseJsonNumber (c :: rest)

/-- Parse the elements of a non-empty JSON array, including the closing
bracket. -/
def parseJsonItems : Nat → List Char → Option (List JValue × List Char)
  | 0, _ => none
  | Nat.succ fuel, cs =>
      match parseJsonValue fuel cs with
      | none => none
      | some (v, r) =>
          match skipWs r with
          | ',' :: r2 =>
              match parseJsonItems fuel r2 with
              | some (vs, r3) => some (v :: vs, r3)
              | none => none
          | ']' :: r2 => some ([v], r2)
          | _ => none

/-- Parse the members of a non-empty JSON object, including the closing
brace. -/
def parseJsonMembers : Nat → List Char → Option (List (String × JValue) × List Char)
  | 0, _ => none
  | Nat.succ fuel, cs =>
      match skipWs cs with
      | '"' :: r0 =>
          match parseStrBody r0 with
          | none => none
          | some (kcs, r1) =>
              match skipWs r1 with
              | ':' :: r2 =>
                  match parseJsonValue fuel r2 with
                  | none => none
                  | some (v, r3) =>
                      match skipWs r3 with
                      | ',' :: r4 =>
                          match parseJsonMembers fuel r4 with
                          | some (fsr) => some ((⟨kcs⟩, v) :: fsr.1, fsr.2)
                          | none => none
                      | c5 :: r5 => if c5 = rbrace then some ([(⟨kcs⟩, v)], r5) else none
                      | [] => none
              | _ => none
      | _ => none

end

/-- Model of `JSON.parse`: `none` plays the role of a thrown `SyntaxError`. -/
def jsonParse (s : String) : Option JValue :=
  match parseJsonValue (2 * s.length + 4) s.data with
  | some (v, r) => if (skipWs r).isEmpty then some v else none
  | none => none

/-!
Canonical message model (the Gemini-style request/response vocabulary) and
the OpenAI-family wire model, as the adapter reads and writes them.
-/

/-- Canonical content part. -/
inductive GPart where
  | text (s : String) : GPart
  | inlineData (mimeType data : String) : GPart
  | functionCall (id : Option String) (name : Option String) (args : Option JValue) : GPart
  | functionResponse (id : Option String) (response : JValue) : GPart

/-- Canonical content entry. -/
structure GContent where
  role : String
  parts : List GPart

/-- Body of an outbound wire message.  The wire protocol permits a string,
`null`, or a multi-part array; the constructor `arrC` exists to state which
of these the adapter actually produces. -/
inductive MsgContent where
  | nullC : MsgContent
  | strC (s : String) : MsgContent
  | arrC (elems : List JValue) : MsgContent

/-- Outbound wire tool call (`type: "function"` is implicit). -/
structure OAIToolCall where
  id : String
  name : String
  arguments : String

/-- Outbound wire message. -/
structure OAIMessage where
  role : String
  content : MsgContent
  tool_call_id : Option String := none
  tool_calls : List OAIToolCall := []

/-- Source `OpenAIAdapter.getSupportedModalities` (constant for this
adapter). -/
def getSupportedModalities (_role : String) : List String := ["text", "image"]

/-- Truthy text parts of a content entry, in order (`'text' in part &&
part.text`). -/
def textPartsOf (parts : List GPart) : List String :=
  parts.filterMap fun p =>
    match p with
    | .text s => if s = "" then none else some s
    | _ => none

/-- Function-call parts of a content entry, in order. -/
def functionCallsOf (parts : List GPart) : List (Option String × Option String × Option JValue) :=
  parts.filterMap fun p =>
    match p with
    | .functionCall id name args => some (id, name, args)
    | _ => none

/-- Function-response parts of a content entry, in order. -/
def functionResponsesOf (parts : List GPart) : List (Option String × JValue) :=
  parts.filterMap fun p =>
    match p with
    | .functionResponse id response => some (id, response)
    | _ => none

/-- One wire image entry built from an inline-binary part. -/
def imageEntry (mimeType data : String) : JValue :=
  .obj [("type", .str "image_url"),
        ("image_url", .obj [("url", .str ("data:" ++ mimeType ++ ";base64," ++ data))])]

/-- Wire image entries of a content entry (gated on the declared
modalities, as the source is). -/
def imagePartsOf (parts : List GPart) : List JValue :=
  parts.filterMap fun p =>
    match p with
    | .inlineData mimeType data =>
        if (getSupportedModalities "text").contains "image" then
          some (imageEntry mimeType data)
        else none
    | _ => none

/-- The `\n`-join the source applies to collected text parts. -/
def joinNl : List String → String
  | [] => ""
  | [s] => s
  | s :: rest => s ++ "\n" ++ joinNl rest

/-- The payload of a tool message: strings pass through, anything else is
JSON-serialized. -/
def stringifyResponse : JValue → String
  | .str s => s
  | v => jsonStringify v

/-- Model of `fc.args || \x7b\x7d`. -/
def jsArgsOrEmpty : Option JValue → JValue
  | some v => if jsTruthy v then v else .obj []
  | none => .obj []

/-- Wire messages produced from one canonical content entry by
`OpenAIAdapter.convertContentsToMessages` (tool-calling version): tool
responses become `tool` messages; a model entry with tool calls becomes one
`assistant` message carrying `tool_calls`; otherwise a plain (possibly
multi-modal) message is emitted. -/
def messagesOfContent (content : GContent) : List OAIMessage :=
  let functionCalls := functionCallsOf content.parts
  let functionResponses := functionResponsesOf content.parts
  let textParts := textPartsOf content.parts
  let imageParts := imagePartsOf content.parts
  if !functionResponses.isEmpty then
    functionResponses.map fun fr =>
      { role := "tool",
        tool_call_id := some (fr.1.getD ""),
        content := .strC (stringifyResponse fr.2) }
  else if content.role = "model" && !functionCalls.isEmpty then
    [{ role := "assistant",
       content := (if (joinNl textParts) = "" then .nullC else .strC (joinNl textParts)),
       tool_calls := functionCalls.mapIdx fun index fc =>
         { id := (match fc.1 with
                  | some i => if i = "" then "call_" ++ toString index else i
                  | none => "call_" ++ toString index),
           name := fc.2.1.getD "",
           arguments := jsonStringify (jsArgsOrEmpty fc.2.2) } }]
  else
    let role := if content.role = "model" then "assistant" else "user"
    if !imageParts.isEmpty then
      let messageContent :=
        (if !textParts.isEmpty then
           [JValue.obj [("type", .str "text"), ("text", .str (joinNl textParts))]]
         else []) ++ imageParts
      [{ role := role, content := .strC (jsonStringify (.arr messageContent)) }]
    else
      if (joinNl textParts) = "" then []
      else [{ role := role, content := .strC (joinNl textParts) }]

/-- Source `convertContentsToMessages` on a canonical content sequence.
(The source's extra branches for raw-string and bare-part-array inputs
concern non-canonical call shapes and are outside the claims.) -/
def convertContentsToMessages : List GContent → List OAIMessage
  | [] => []
  | content :: rest => messagesOfContent content ++ convertContentsToMessages rest

/-!
JSON response-mode request rewriting and request assembly.
-/

/-- Canonical request config (the fields the verified operations read;
`response_format` is the slot `modifyRequestForJsonResponse` writes and
`buildApiRequest` forwards). -/
structure GenerateConfig where
  responseMimeType : Option String := none
  response_format : Option JValue := none

/-- Canonical content-generation request (the fields the verified
operations read; generation parameters and the tool list are orthogonal to
the claims and modelled separately). -/
structure GenerateContentParameters where
  model : String
  contents : List GContent
  config : Option GenerateConfig := none
  systemInstruction : Option GContent := none

/-- The natural-language strict-JSON instruction the adapter appends. -/
def jsonInstruction : String :=
  "\n\n请以严格的JSON格式返回结果，不要包含其他文本或解释。" ++
    "确保输出是有效的JSON，可以被JSON.parse()解析。"

/-- The `response_format` value enabling JSON mode. -/
def jsonObjectFormat : JValue := .obj [("type", .str "json_object")]

/-- Part-rewriting half of `modifyRequestForJsonResponse`: the instruction
is appended to the last part's text when that text is truthy, and pushed as
a new text part otherwise. -/
def appendedParts (parts : List GPart) : List GPart :=
  match parts.getLast? with
  | some (GPart.text s) =>
      if s = "" then parts ++ [GPart.text jsonInstruction]
      else parts.dropLast ++ [GPart.text (s ++ jsonInstruction)]
  | _ => parts ++ [GPart.text jsonInstruction]

/-- Rewriting of the content list: the instruction lands on the last
content entry only when that entry has role `user` and a non-empty part
list. -/
def appendJsonInstruction (contents : List GContent) : List GContent :=
  match contents.getLast? with
  | none => contents
  | some lastContent =>
      if lastContent.role = "user" && !lastContent.parts.isEmpty then
        contents.dropLast ++ [{ lastContent with parts := appendedParts lastContent.parts }]
      else contents

/-- Source `OpenAIAdapter.modifyRequestForJsonResponse`: rewrite the last
user message and set `config.response_format` (creating `config` when
absent). -/
def modifyRequestForJsonResponse (request : GenerateContentParameters) :
    GenerateContentParameters :=
  let request := { request with contents := appendJsonInstruction request.contents }
  { request with
    config := some { (request.config.getD {}) with
      response_format := some jsonObjectFormat } }

/-- Request-side transform applied by `generateContent` before building the
wire request: the rewrite fires exactly when `config?.responseMimeType`
equals `application/json`. -/
def requestForGenerateContent (request : GenerateContentParameters) :
    GenerateContentParameters :=
  if request.config.bind (·.responseMimeType) = some "application/json" then
    modifyRequestForJsonResponse request
  else request

/-- Outbound wire request (the fields the verified operations produce). -/
structure ApiRequest where
  model : String
  messages : List OAIMessage
  response_format : Option JValue := none

/-- Source `buildApiRequest` (tool-calling version), restricted to the
translated messages, the optional system message, and the
`response_format` passthrough; generation-parameter mapping and the tool
list are orthogonal to the claims. -/
def buildApiRequest (request : GenerateContentParameters) : ApiRequest :=
  let messages := convertContentsToMessages request.contents
  let messages :=
    match request.systemInstruction with
    | some systemContent =>
        match systemContent.parts.head? with
        | some (GPart.text s) =>
            if s = "" then messages
            else { role := "system", content := .strC s : OAIMessage } :: messages
        | _ => messages
    | none => messages
  { model := request.model,
    messages := messages,
    response_format :=
      match request.config with
      | some cfg =>
          match cfg.response_format with
          | some v => if jsTruthy v then some v else none
          | none => none
      | none => none }

/-!
Finish-reason mapping and tool-parameter schema conversion.
-/

/-- Canonical finish reasons used by the adapter. -/
inductive FinishReason where
  | STOP : FinishReason
  | MAX_TOKENS : FinishReason
  | SAFETY : FinishReason
  | OTHER : FinishReason
  | FINISH_REASON_UNSPECIFIED : FinishReason
deriving DecidableEq

/-- Source `convertFinishReason` (tool-calling version: `tool_calls` also
maps to `STOP`). -/
def convertFinishReason (finishReason : String) : FinishReason :=
  if finishReason = "stop" then .STOP
  else if finishReason = "length" then .MAX_TOKENS
  else if finishReason = "content_filter" then .SAFETY
  else if finishReason = "tool_calls" then .STOP
  else .OTHER

/-- Keys coerced from strings to numbers by the schema conversion. -/
def numericConstraintKey (k : String) : Bool :=
  k = "minimum" || k = "maximum" || k = "multipleOf"

/-- Keys coerced from strings to integers by the schema conversion. -/
def lengthConstraintKey (k : String) : Bool :=
  k = "minLength" || k = "maxLength" || k = "minItems" || k = "maxItems"

/-- Per-field cascade of the `convertTypes` walker: `type` strings are
lower-cased (the source's explicit `integer` / `number` cases return the
lower-cased value unchanged); numeric-constraint keys convert parseable
strings via `Number`; length-constraint keys convert parseable strings via
`parseInt`; the value of any other key — and a non-string value under
`type` — takes the recursive result (`recursed` is `convertTypes v`; for a
primitive it equals `v`, matching the source's `typeof` check).  A
non-string value under a numeric or length constraint key is copied
without recursion. -/
def convertFieldValue (k : String) (v recursed : JValue) : JValue :=
  if k = "type" then
    match v with
    | .str s => .str (asciiLower s)
    | _ => recursed
  else if numericConstraintKey k then
    match v with
    | .str s =>
        (match jsNumberOfString s with
         | some q => .num q
         | none => .str s)
    | v => v
  else if lengthConstraintKey k then
    match v with
    | .str s =>
        if (jsNumberOfString s).isSome then
          match jsParseIntOfString s with
          | some n => .num (n : ℚ)
          | none => .str s
        else .str s
    | v => v
  else recursed

mutual

/-- The `convertTypes` walker inside `convertGeminiParametersToOpenAI`.
Within objects the per-key cascade applies (see `convertFieldValue`);
arrays are mapped; primitives are returned unchanged. -/
def convertTypes : JValue → JValue
  | .arr xs => .arr (convertTypesList xs)
  | .obj fs => .obj (convertTypesFields fs)
  | v => v

/-- Elementwise conversion of array elements. -/
def convertTypesList : List JValue → List JValue
  | [] => []
  | v :: vs => convertTypes v :: convertTypesList vs

/-- Fieldwise conversion of object fields. -/
def convertTypesFields : List (String × JValue) → List (String × JValue)
  | [] => []
  | (k, v) :: fs => (k, convertFieldValue k v (convertTypes v)) :: convertTypesFields fs

end

/-- Source `convertGeminiParametersToOpenAI`: falsy or non-object inputs
are returned unchanged; otherwise the deep-copied tree is walked by
`convertTypes`. -/
def convertGeminiParametersToOpenAI (parameters : Option JValue) : Option JValue :=
  match parameters with
  | none => none
  | some p =>
      if jsTruthy p then
        match p with
        | .obj _ => some (convertTypes p)
        | .arr _ => some (convertTypes p)
        | _ => some p
      else some p

/-!
Inbound translation, non-streaming (`convertToGeminiResponse`,
tool-calling version).
-/

/-- Wire `function` object of a tool call. -/
structure WireFunction where
  name : Option String := none
  arguments : Option String := none

/-- Wire tool call of a non-streaming response. -/
structure WireToolCall where
  id : Option String := none
  function : Option WireFunction := none

/-- Wire assistant message of a non-streaming choice. -/
structure WireMessage where
  content : Option String := none
  tool_calls : Option (List WireToolCall) := none

/-- Wire choice of a non-streaming response. -/
structure WireChoice where
  message : Option WireMessage := none
  finish_reason : Option String := none
  index : Option Int := none

/-- Wire usage block. -/
structure WireUsage where
  prompt_tokens : Option Int := none
  completion_tokens : Option Int := none
  total_tokens : Option Int := none
deriving DecidableEq

/-- Wire non-streaming response. -/
structure WireResponse where
  error : Option String := none
  choices : List WireChoice := []
  usage : Option WireUsage := none

/-- Canonical response candidate (role is constantly `model`). -/
structure Candidate where
  index : Int
  parts : List GPart
  finishReason : FinishReason

/-- Canonical usage metadata. -/
structure UsageMetadata where
  promptTokenCount : Int
  candidatesTokenCount : Int
  totalTokenCount : Int

/-- Canonical content-generation response. -/
structure GenerateContentResponse where
  candidates : List Candidate
  usageMetadata : Option UsageMetadata := none

/-- Argument handling of one inbound tool call: truthy argument strings are
JSON-parsed, a parse failure is logged and yields the empty map; falsy or
absent argument strings yield the empty map silently. -/
def argsOfWireArguments (arguments : Option String) (logMsg : String) :
    JValue × List String :=
  match arguments with
  | some s =>
      if s = "" then (.obj [], [])
      else
        match jsonParse s with
        | some v => (v, [])
        | none => (.obj [], [logMsg])
  | none => (.obj [], [])

/-- Canonical parts of one inbound tool-call list, with parse-error logs. -/
def partsOfWireToolCalls (toolCalls : List WireToolCall) : List GPart × List String :=
  toolCalls.foldl
    (fun acc tc =>
      match tc.function with
      | some f =>
          let (args, logs) := argsOfWireArguments f.arguments
            "Failed to parse function arguments"
          (acc.1 ++ [GPart.functionCall tc.id f.name (some args)], acc.2 ++ logs)
      | none => acc)
    ([], [])

/-- Canonical candidate of one wire choice, with logs. -/
def candidateOfWireChoice (choice : WireChoice) : Candidate × List String :=
  let textParts : List GPart :=
    match choice.message with
    | some m =>
        match m.content with
        | some c => if c = "" then [] else [GPart.text c]
        | none => []
    | none => []
  let (tcParts, logs) :=
    match choice.message.bind (·.tool_calls) with
    | some tcs => partsOfWireToolCalls tcs
    | none => ([], [])
  ({ index := choice.index.getD 0,
     parts := textParts ++ tcParts,
     finishReason := convertFinishReason (choice.finish_reason.getD "") }, logs)

/-- Source `convertToGeminiResponse` (tool-calling version): an error body
throws; otherwise every choice is converted, and usage is mapped when
present.  The returned log list carries the argument-parse errors. -/
def convertToGeminiResponse (response : WireResponse) :
    Except String (GenerateContentResponse × List String) :=
  match response.error with
  | some msg => .error ("API error: " ++ msg)
  | none =>
      let converted := response.choices.map candidateOfWireChoice
      .ok
        ({ candidates := converted.map (·.1),
           usageMetadata := response.usage.map fun u =>
             { promptTokenCount := u.prompt_tokens.getD 0,
               candidatesTokenCount := u.completion_tokens.getD 0,
               totalTokenCount := u.total_tokens.getD 0 } },
         (converted.map (·.2)).flatten)

/-!
Inbound translation, streaming: the tool-call accumulator
(`streamingToolCalls`), `convertStreamChunkToGeminiFormat`, and the
`parseStreamResponse` data-line loop.
-/

/-- One entry of `delta.tool_calls` in a streaming chunk. -/
structure ToolCallDelta where
  index : Option Int := none
  id : Option String := none
  name : Option String := none
  argumentsFrag : Option String := none
deriving DecidableEq

/-- First choice of a streaming chunk (`choice.delta` is flattened into the
two fields the code reads). -/
structure ChunkChoice where
  deltaContent : Option String := none
  toolCallDeltas : Option (List ToolCallDelta) := none
  finish_reason : Option String := none
deriving DecidableEq

/-- Streaming wire chunk. -/
structure StreamChunk where
  choices : List ChunkChoice := []
  usage : Option WireUsage := none
deriving DecidableEq

/-- One accumulator entry of `streamingToolCalls`. -/
structure AccEntry where
  id : Option String := none
  name : Option String := none
  arguments : String := ""
deriving DecidableEq

/-- Accumulator state: a JS `Map` from tool-call index to entry, in
insertion order. -/
abbrev AccState := List (Int × AccEntry)

/-- The accumulator key of a delta (`toolCall.index ?? 0`). -/
def deltaIndex (d : ToolCallDelta) : Int := d.index.getD 0

/-- Field updates one delta applies to an accumulator entry: overwrite `id`
and `name` when the delta carries truthy values, append a truthy arguments
fragment. -/
def applyDelta (e : AccEntry) (d : ToolCallDelta) : AccEntry :=
  let e1 := if truthyStr d.id then { e with id := d.id } else e
  let e2 := if truthyStr d.name then { e1 with name := d.name } else e1
  if truthyStr d.argumentsFrag then
    { e2 with arguments := e2.arguments ++ d.argumentsFrag.getD "" }
  else e2

/-- Processing of one `tool_calls` delta entry: look up or create the
accumulator at `index ?? 0` and apply the delta's field updates. -/
def accUpdate (acc : AccState) (d : ToolCallDelta) : AccState :=
  setAssocI acc (deltaIndex d) (applyDelta ((lookupAssocI acc (deltaIndex d)).getD {}) d)

/-- The `tool_calls` delta entries the converter iterates for a chunk (the
first choice's list when present). -/
def chunkDeltas (chunk : StreamChunk) : List ToolCallDelta :=
  match chunk.choices.head? with
  | some choice => (choice.toolCallDeltas).getD []
  | none => []

/-- Accumulator update performed by one chunk. -/
def accumulateChunk (acc : AccState) (chunk : StreamChunk) : AccState :=
  (chunkDeltas chunk).foldl accUpdate acc

/-- One step of the terminal emission: an entry whose name is truthy
produces one function-call part (with its arguments buffer JSON-parsed, a
parse failure logged and replaced by the empty map); other entries are
skipped. -/
def emitStep (out : List GPart × List String) (ie : Int × AccEntry) :
    List GPart × List String :=
  if truthyStr ie.2.name then
    let parsed := argsOfWireArguments (some ie.2.arguments)
      "Failed to parse final tool call arguments"
    (out.1 ++ [GPart.functionCall ie.2.id ie.2.name (some parsed.1)], out.2 ++ parsed.2)
  else out

/-- Terminal emission over the whole accumulator. -/
def emitFunctionCallParts (acc : AccState) : List GPart × List String :=
  acc.foldl emitStep ([], [])

/-- Source `convertStreamChunkToGeminiFormat`, with the instance field
`streamingToolCalls` made an explicit state: returns the new state, the
canonical chunk, and the logs.  Text deltas are emitted immediately;
tool-call deltas only accumulate; when the chunk carries a truthy
`finish_reason` the accumulated calls are emitted after the text and the
accumulator is cleared. -/
def convertStreamChunkToGeminiFormat (acc : AccState) (chunk : StreamChunk) :
    AccState × GenerateContentResponse × List String :=
  let choice := chunk.choices.head?
  let usageMetadata := chunk.usage.map fun u =>
    { promptTokenCount := u.prompt_tokens.getD 0,
      candidatesTokenCount := u.completion_tokens.getD 0,
      totalTokenCount := u.total_tokens.getD 0 : UsageMetadata }
  let mkOut := fun (parts : List GPart) (finishReason : FinishReason) =>
    { candidates := [{ index := 0, parts := parts, finishReason := finishReason }],
      usageMetadata := usageMetadata : GenerateContentResponse }
  match choice with
  | none => (acc, mkOut [] .FINISH_REASON_UNSPECIFIED, [])
  | some c =>
      let textParts : List GPart :=
        if truthyStr c.deltaContent then [GPart.text (c.deltaContent.getD "")] else []
      let acc1 := match c.toolCallDeltas with
        | some ds => ds.foldl accUpdate acc
        | none => acc
      if truthyStr c.finish_reason then
        let (fcParts, logs) := emitFunctionCallParts acc1
        ([],
         mkOut (textParts ++ fcParts) (convertFinishReason (c.finish_reason.getD "")),
         logs)
      else
        (acc1, mkOut textParts .FINISH_REASON_UNSPECIFIED, [])

/-- The chunk-conversion loop of `parseStreamResponse` applied to a list of
already-decoded chunks, threading the accumulator from `acc`.  Returns the
yielded canonical chunks, the final accumulator, and the logs. -/
def processChunksAux (acc : AccState) :
    List StreamChunk → List GenerateContentResponse × AccState × List String
  | [] => ([], acc, [])
  | chunk :: rest =>
      let step := convertStreamChunkToGeminiFormat acc chunk
      let tail := processChunksAux step.1 rest
      (step.2.1 :: tail.1, tail.2.1, step.2.2 ++ tail.2.2)

/-- Stream processing from the cleared accumulator (the source clears
`streamingToolCalls` when the stream starts). -/
def processChunks (chunks : List StreamChunk) :
    List GenerateContentResponse × AccState × List String :=
  processChunksAux [] chunks

/-!
Decoding of a parsed data-line payload into a `StreamChunk`.  The decoder
covers the protocol-shaped payloads (the OpenAI-family streaming schema);
payloads outside this fragment — for which the source's dynamic field
accesses may throw inside the `try`, getting logged and skipped — are
rejected.
-/

/-- Decode `delta.tool_calls[i]`. -/
def toolCallDeltaOfJson : JValue → Option ToolCallDelta
  | .obj fs => do
      let index ← match lookupAssoc fs "index" with
        | some (.num q) => if q.den = 1 then some (some q.num) else none
        | some .null => some none
        | none => some none
        | _ => none
      let id ← match lookupAssoc fs "id" with
        | some (.str s) => some (some s)
        | some .null => some none
        | none => some none
        | _ => none
      let fn ← match lookupAssoc fs "function" with
        | some (.obj ffs) => do
            let name ← match lookupAssoc ffs "name" with
              | some (.str s) => some (some s)
              | some .null => some none
              | none => some none
              | _ => none
            let args ← match lookupAssoc ffs "arguments" with
              | some (.str s) => some (some s)
              | some .null => some none
              | none => some none
              | _ => none
            some (name, args)
        | some .null => some (none, none)
        | none => some (none, none)
        | _ => none
      some { index := index, id := id, name := fn.1, argumentsFrag := fn.2 }
  | _ => none

/-- Decode one element of `choices`. -/
def chunkChoiceOfJson : JValue → Option ChunkChoice
  | .obj fs => do
      let (deltaContent, toolCallDeltas) ←
        match lookupAssoc fs "delta" with
        | some (.obj dfs) => do
            let content ← match lookupAssoc dfs "content" with
              | some (.str s) => some (some s)
              | some .null => some none
              | none => some none
              | _ => none
            let tcs ← match lookupAssoc dfs "tool_calls" with
              | some (.arr items) => (items.mapM toolCallDeltaOfJson).map some
              | some .null => some none
              | none => some none
              | _ => none
            some (content, tcs)
        | some .null => some (none, none)
        | none => some (none, none)
        | _ => none
      let finish ← match lookupAssoc fs "finish_reason" with
        | some (.str s) => some (some s)
        | some .null => some none
        | none => some none
        | _ => none
      some { deltaContent := deltaContent, toolCallDeltas := toolCallDeltas,
             finish_reason := finish }
  | .null => some {}
  | _ => some {}

/-- Decode the usage block. -/
def wireUsageOfJson : JValue → Option WireUsage
  | .obj fs => do
      let f := fun (k : String) =>
        match lookupAssoc fs k with
        | some (.num q) => if q.den = 1 then some (some q.num) else none
        | some .null => some none
        | none => some none
        | _ => (none : Option (Option Int))
      let p ← f "prompt_tokens"
      let c ← f "completion_tokens"
      let t ← f "total_tokens"
      some { prompt_tokens := p, completion_tokens := c, total_tokens := t }
  | _ => none

/-- Decode a parsed payload into a streaming chunk.  A `null` payload is
rejected (the source's `chunk.choices` access throws on it); a non-array
`choices` value behaves like an absent first choice. -/
def streamChunkOfJson : JValue → Option StreamChunk
  | .null => none
  | .obj fs => do
      let choices ← match lookupAssoc fs "choices" with
        | some (.arr items) => items.mapM chunkChoiceOfJson
        | _ => some []
      let usage ← match lookupAssoc fs "usage" with
        | some u => if jsTruthy u then (wireUsageOfJson u).map some else some none
        | none => some none
      some { choices := choices, usage := usage }
  | _ => some {}

/-- Data-line payloads of a streaming body: the `data: `-prefixed lines up
to (excluding) the `[DONE]` sentinel. -/
def dataPayloads : List String → List String
  | [] => []
  | line :: rest =>
      if strStartsWith line "data: " then
        let d := strDrop line 6
        if d = "[DONE]" then [] else d :: dataPayloads rest
      else dataPayloads rest

/-- Source `parseStreamResponse` on the decoded line list: each payload
before the sentinel is JSON-parsed and converted; unparseable payloads are
logged and skipped and the stream continues. -/
def runStreamLines (acc : AccState) :
    List String → List GenerateContentResponse × List String
  | [] => ([], [])
  | line :: rest =>
      if strStartsWith line "data: " then
        let d := strDrop line 6
        if d = "[DONE]" then ([], [])
        else
          match (jsonParse d).bind streamChunkOfJson with
          | some chunk =>
              let (acc1, out, logs1) := convertStreamChunkToGeminiFormat acc chunk
              let (outs, logs2) := runStreamLines acc1 rest
              (out :: outs, logs1 ++ logs2)
          | none =>
              let (outs, logs) := runStreamLines acc rest
              (outs, "Failed to parse streaming response" :: logs)
      else runStreamLines acc rest

/-- Whole-stream translation: the generator starts with a cleared
accumulator. -/
def parseStreamResponse (lines : List String) :
    List GenerateContentResponse × List String :=
  runStreamLines [] lines

/-!
Shared lemmas about the JS-object and JS-Map models.
-/

theorem lookupAssoc_setAssoc_self {β : Type} (l : List (String × β)) (k : String) (v : β) :
    lookupAssoc (setAssoc l k v) k = some v := by
  induction l with
  | nil => simp [setAssoc, lookupAssoc]
  | cons hd tl ih =>
      obtain ⟨k', v'⟩ := hd
      by_cases h : k' = k
      · simp [setAssoc, lookupAssoc, h]
      · simp [setAssoc, lookupAssoc, h, ih]

theorem lookupAssoc_setAssoc_ne {β : Type} (l : List (String × β)) (k k' : String) (v : β)
    (h : k' ≠ k) : lookupAssoc (setAssoc l k v) k' = lookupAssoc l k' := by
  have hne : k ≠ k' := fun hh => h hh.symm
  induction l with
  | nil => simp [setAssoc, lookupAssoc, hne]
  | cons hd tl ih =>
      obtain ⟨k0, v0⟩ := hd
      by_cases h0 : k0 = k
      · subst h0
        simp [setAssoc, lookupAssoc, hne]
      · simp only [setAssoc, h0, if_false, lookupAssoc]
        by_cases h1 : k0 = k'
        · simp [h1]
        · simp [h1, ih]

theorem lookupAssoc_eq_none_of_not_mem {β : Type} (l : List (String × β)) (k : String)
    (h : k ∉ l.map Prod.fst) : lookupAssoc l k = none := by
  induction l with
  | nil => simp [lookupAssoc]
  | cons hd tl ih =>
      obtain ⟨k', v'⟩ := hd
      simp only [List.map_cons, List.mem_cons] at h
      push_neg at h
      have : k' ≠ k := fun hh => h.1 hh.symm
      simp [lookupAssoc, this, ih h.2]

/-!
Claim C7 — model-config resolution nullity.
-/

/-- Claim C7 (amended): `getModelConfig` returns `null` exactly when the
model id is absent from the descriptor's `defaultModels`; the record's
`models` list is not consulted by this resolution. -/
theorem c7_theorem (adapterConfig : AdapterConfig) (userConfig : UserProviderConfig)
    (modelId : String) :
    getModelConfig adapterConfig userConfig modelId = none ↔
      lookupAssoc adapterConfig.defaultModels modelId = none := by
  unfold getModelConfig
  cases h : lookupAssoc adapterConfig.defaultModels modelId <;> simp [h]

/-- Concrete descriptor with an empty default-model catalogue. -/
def c7desc : AdapterConfig := { defaultModels := [], requiredHeaders := [] }

/-- Concrete record enabling model `m1`. -/
def c7record : UserProviderConfig := { apiKey := "", models := ["m1"], modelOverrides := [] }

/-- Claim C7 counterexample: for a model id present in `record.models` but
absent from `defaultModels`, the resolution returns `null`, so nullity is
not equivalent to "absent from `defaultModels` AND absent from
`record.models`" as the claim states. -/
theorem c7_counterexample :
    ¬ (getModelConfig c7desc c7record "m1" = none ↔
        (lookupAssoc c7desc.defaultModels "m1" = none ∧ "m1" ∉ c7record.models)) := by
  simp [getModelConfig, c7desc, c7record, lookupAssoc]

/-!
Claim C6 — api-key resolution in request headers.
-/

/-- Claim C6 (amended): building the request headers for a `$`-prefixed api
key substitutes the value of the named environment variable into the
api-key template placeholder when that variable is present and non-empty;
when it is absent, a warning is logged and the raw `$NAME` value — not the
empty string — is substituted. -/
theorem c6_theorem (env : String → Option String) (apiKey key template : String)
    (hne : apiKey ≠ "") (hkey : strStartsWith apiKey "$" = true) :
    (env (strDrop apiKey 1) = none →
      getRequestHeaders env [(key, template)] apiKey [] =
        (setAssoc [("Content-Type", "application/json")] key
          (jsReplaceFirst template apiKeyPlaceholder apiKey), [strDrop apiKey 1])) ∧
    (∀ v, env (strDrop apiKey 1) = some v → v ≠ "" →
      getRequestHeaders env [(key, template)] apiKey [] =
        (setAssoc [("Content-Type", "application/json")] key
          (jsReplaceFirst template apiKeyPlaceholder v), [])) := by
  constructor
  · intro henv
    simp [getRequestHeaders, resolveApiKey, hne, hkey, henv]
  · intro v henv hv
    simp [getRequestHeaders, resolveApiKey, hne, hkey, henv, hv]

/-- Sample environment for the C6 witness. -/
def c6sampleEnv : String → Option String :=
  fun n => if n = "PRESENT" then some "sk-123" else none

/-- Claim C6 witness: concrete instantiation of `c6_theorem` on a present
environment variable. -/
theorem c6_witness :
    ("$PRESENT" : String) ≠ "" ∧ strStartsWith "$PRESENT" "$" = true ∧
    c6sampleEnv (strDrop "$PRESENT" 1) = some "sk-123" ∧
    getRequestHeaders c6sampleEnv [("Authorization", "Bearer " ++ apiKeyPlaceholder)]
        "$PRESENT" [] =
      (setAssoc [("Content-Type", "application/json")] "Authorization"
        (jsReplaceFirst ("Bearer " ++ apiKeyPlaceholder) apiKeyPlaceholder "sk-123"), []) :=
  ⟨by decide, by decide, by decide,
   (c6_theorem c6sampleEnv "$PRESENT" "Authorization" ("Bearer " ++ apiKeyPlaceholder)
      (by decide) (by decide)).2 "sk-123" (by decide) (by decide)⟩

/-- Claim C6 counterexample: with `apiKey = "$MISSING_VAR"` and the
variable unset, the produced header carries the raw `$MISSING_VAR` value
(after template substitution), not the empty string the claim requires. -/
theorem c6_counterexample :
    getRequestHeaders (fun _ => none)
        [("Authorization", "Bearer " ++ apiKeyPlaceholder)] "$MISSING_VAR" [] =
      ([("Content-Type", "application/json"), ("Authorization", "Bearer $MISSING_VAR")],
       ["MISSING_VAR"]) ∧
    ("Bearer $MISSING_VAR" : String) ≠ "Bearer " := by
  constructor
  · decide
  · decide

/-!
Claim C3 — deep merge with user-wins semantics.
-/

/-- Per-key outcome of one `deepMerge` step: two non-array objects merge
recursively; any other source value (array, primitive, `null`, or an object
meeting a non-object default) replaces the default. -/
def mergeValue (targetValue : Option JValue) (sourceValue : JValue) : JValue :=
  match sourceValue, targetValue with
  | .obj sfs, some (.obj tfs) => .obj (deepMerge tfs sfs)
  | sv, _ => sv

theorem deepMerge_cons (t : List (String × JValue)) (k : String) (sv : JValue)
    (rest : List (String × JValue)) :
    deepMerge t ((k, sv) :: rest) =
      deepMerge (setAssoc t k (mergeValue (lookupAssoc t k) sv)) rest := by
  cases sv with
  | obj sfs =>
      cases h : lookupAssoc t k with
      | none => simp [deepMerge, mergeValue, h]
      | some tv => cases tv <;> simp [deepMerge, mergeValue, h]
  | arr xs => simp [deepMerge, mergeValue]
  | null => simp [deepMerge, mergeValue]
  | bool b => simp [deepMerge, mergeValue]
  | num q => simp [deepMerge, mergeValue]
  | str s => simp [deepMerge, mergeValue]

theorem deepMerge_lookup (s : List (String × JValue)) :
    ∀ (t : List (String × JValue)) (k : String), (s.map Prod.fst).Nodup →
      lookupAssoc (deepMerge t s) k =
        (match lookupAssoc s k with
         | none => lookupAssoc t k
         | some sv => some (mergeValue (lookupAssoc t k) sv)) := by
  induction s with
  | nil =>
      intro t k _
      simp [deepMerge, lookupAssoc]
  | cons hd rest ih =>
      intro t k hnd
      obtain ⟨k0, sv0⟩ := hd
      simp only [List.map_cons, List.nodup_cons] at hnd
      rw [deepMerge_cons, ih _ k hnd.2]
      by_cases hk : k0 = k
      · subst hk
        have hrest : lookupAssoc rest k0 = none :=
          lookupAssoc_eq_none_of_not_mem _ _ hnd.1
        simp [lookupAssoc, hrest, lookupAssoc_setAssoc_self]
      · simp [lookupAssoc, hk,
          lookupAssoc_setAssoc_ne _ _ _ _ (fun hh => hk hh.symm)]

/-- The claim's concrete default object. -/
def c3target : List (String × JValue) :=
  [("A", .obj [("a", .num 1), ("b", .num 2)]), ("B", .arr [.num 1, .num 2, .num 3])]

/-- The claim's concrete override object. -/
def c3source : List (String × JValue) :=
  [("A", .obj [("b", .num 3), ("c", .num 4)]), ("B", .arr [.num 9])]

/-- The claim's expected merge result. -/
def c3expected : List (String × JValue) :=
  [("A", .obj [("a", .num 1), ("b", .num 3), ("c", .num 4)]), ("B", .arr [.num 9])]

/-- Claim C3 (confirmed): the resolved model config is the deep merge of
the descriptor default with the user override, with user-wins semantics —
keywise, a key missing from the override keeps the default value, two
nested non-array objects merge recursively, an override array replaces the
default, and primitive or `null` override values replace the default; the
claim's concrete example merges as stated. -/
theorem c3_theorem (adapterConfig : AdapterConfig) (userConfig : UserProviderConfig)
    (modelId : String) (defaultConfig : List (String × JValue))
    (hdef : lookupAssoc adapterConfig.defaultModels modelId = some defaultConfig) :
    getModelConfig adapterConfig userConfig modelId =
      some (deepMerge defaultConfig
        ((lookupAssoc userConfig.modelOverrides modelId).getD [])) ∧
    (∀ (t s : List (String × JValue)) (k : String), (s.map Prod.fst).Nodup →
      lookupAssoc (deepMerge t s) k =
        (match lookupAssoc s k with
         | none => lookupAssoc t k
         | some sv => some (mergeValue (lookupAssoc t k) sv))) ∧
    (∀ (tfs sfs : List (String × JValue)),
      mergeValue (some (.obj tfs)) (.obj sfs) = .obj (deepMerge tfs sfs)) ∧
    (∀ (tv : Option JValue) (xs : List JValue), mergeValue tv (.arr xs) = .arr xs) ∧
    (∀ (tv : Option JValue) (q : ℚ), mergeValue tv (.num q) = .num q) ∧
    (∀ (tv : Option JValue), mergeValue tv .null = .null) ∧
    deepMerge c3target c3source = c3expected := by
  refine ⟨?_, fun t s k h => deepMerge_lookup s t k h, ?_, ?_, ?_, ?_, ?_⟩
  · simp [getModelConfig, hdef]
  · intro tfs sfs; rfl
  · intro tv xs; cases tv with
    | none => rfl
    | some v => cases v <;> rfl
  · intro tv q; cases tv with
    | none => rfl
    | some v => cases v <;> rfl
  · intro tv; cases tv with
    | none => rfl
    | some v => cases v <;> rfl
  · simp [c3target, c3source, c3expected, deepMerge, setAssoc, lookupAssoc]

/-- Concrete descriptor for the C3 witness. -/
def c3desc : AdapterConfig := { defaultModels := [("m1", c3target)], requiredHeaders := [] }

/-- Concrete record for the C3 witness. -/
def c3record : UserProviderConfig :=
  { apiKey := "", models := ["m1"], modelOverrides := [("m1", c3source)] }

/-- Claim C3 witness: `c3_theorem` instantiated on a concrete descriptor,
record and model id. -/
theorem c3_witness :
    lookupAssoc c3desc.defaultModels "m1" = some c3target ∧
    getModelConfig c3desc c3record "m1" =
      some (deepMerge c3target ((lookupAssoc c3record.modelOverrides "m1").getD [])) ∧
    lookupAssoc (deepMerge c3target c3source) "B" =
      (match lookupAssoc c3source "B" with
       | none => lookupAssoc c3target "B"
       | some sv => some (mergeValue (lookupAssoc c3target "B") sv)) :=
  ⟨rfl,
   (c3_theorem c3desc c3record "m1" c3target rfl).1,
   (c3_theorem c3desc c3record "m1" c3target rfl).2.1 c3target c3source "B" (by decide)⟩

/-!
Claim C2 — outbound tool-response translation.
-/

/-- All function-response parts of a canonical sequence, in order. -/
def allFunctionResponses : List GContent → List (Option String × JValue)
  | [] => []
  | c :: rest => functionResponsesOf c.parts ++ allFunctionResponses rest

/-- The wire tool message produced from one tool-response part. -/
def toolMessageOf (fr : Option String × JValue) : OAIMessage :=
  { role := "tool",
    tool_call_id := some (fr.1.getD ""),
    content := .strC (stringifyResponse fr.2) }

theorem messagesOfContent_filter_tool (c : GContent) :
    (messagesOfContent c).filter (fun m => m.role == "tool") =
      (functionResponsesOf c.parts).map toolMessageOf := by
  by_cases hfr : (functionResponsesOf c.parts).isEmpty
  · have hfr' : functionResponsesOf c.parts = [] := by
      simpa [List.isEmpty_iff] using hfr
    have hall : ∀ m ∈ messagesOfContent c, ¬ m.role = "tool" := by
      intro m hm
      unfold messagesOfContent at hm
      simp only [hfr', List.isEmpty_nil, Bool.not_true, Bool.false_eq_true, if_false] at hm
      split at hm
      · simp only [List.mem_singleton] at hm
        subst hm
        simp
      · split at hm
        · simp only [List.mem_singleton] at hm
          subst hm
          by_cases hrole : c.role = "model" <;> simp [hrole]
        · split at hm
          · simp at hm
          · simp only [List.mem_singleton] at hm
            subst hm
            by_cases hrole : c.role = "model" <;> simp [hrole]
    rw [hfr', List.map_nil, List.filter_eq_nil_iff]
    intro a ha
    simpa using hall a ha
  · have hfr' : (functionResponsesOf c.parts).isEmpty = false := by
      simpa using hfr
    have hsel : (functionResponsesOf c.parts).filter
        ((fun m : OAIMessage => m.role == "tool") ∘ toolMessageOf) =
        functionResponsesOf c.parts := by
      apply List.filter_eq_self.mpr
      intro a _
      rfl
    unfold messagesOfContent
    simp only [hfr', Bool.not_false, if_true]
    rw [show (fun fr : Option String × JValue =>
        ({ role := "tool", tool_call_id := some (fr.1.getD ""),
           content := .strC (stringifyResponse fr.2) } : OAIMessage)) = toolMessageOf from rfl]
    rw [List.filter_map, hsel]

/-- Claim C2 (confirmed): the wire tool messages of an outbound sequence
are exactly one per tool-response part, in order, each with role `tool`,
`tool_call_id` equal to the part's id, and content equal to the part's
response — passed through for strings, JSON-serialized otherwise. -/
theorem c2_theorem (contents : List GContent) :
    (convertContentsToMessages contents).filter (fun m => m.role == "tool") =
      (allFunctionResponses contents).map toolMessageOf ∧
    (∀ s : String, stringifyResponse (.str s) = s) ∧
    (∀ fs : List (String × JValue), stringifyResponse (.obj fs) = jsonStringify (.obj fs)) := by
  refine ⟨?_, fun s => rfl, fun fs => rfl⟩
  induction contents with
  | nil => rfl
  | cons c rest ih =>
      simp only [convertContentsToMessages, allFunctionResponses, List.filter_append,
        List.map_append, messagesOfContent_filter_tool, ih]

/-!
Claim C8 — inline-image message bodies.
-/

/-- Whether a message body is a genuine multi-part array. -/
def MsgContent.isArr : MsgContent → Bool
  | .arrC _ => true
  | _ => false

/-- Concrete user content with a text and an inline-image part. -/
def c8content : GContent :=
  { role := "user", parts := [.text "look", .inlineData "image/png" "AAAA"] }

/-- Claim C8 counterexample: for a user content with a text and an
inline-image part, the emitted message body is the JSON *string*
serialization of the multi-part array, not a multi-part array value, so
the claim's required body shape does not hold. -/
theorem c8_counterexample :
    convertContentsToMessages [c8content] =
      [{ role := "user",
         content := .strC (jsonStringify (.arr
           [JValue.obj [("type", .str "text"), ("text", .str "look")],
            imageEntry "image/png" "AAAA"])) }] ∧
    MsgContent.isArr (.strC (jsonStringify (.arr
      [JValue.obj [("type", .str "text"), ("text", .str "look")],
       imageEntry "image/png" "AAAA"]))) = false := by
  constructor
  · simp [convertContentsToMessages, messagesOfContent, c8content, functionResponsesOf,
      functionCallsOf, textPartsOf, imagePartsOf, joinNl, getSupportedModalities,
      List.filterMap]
  · rfl

/-- Claim C8 (amended): when a content entry carries inline-image parts
(and neither tool responses nor a model-role tool call), the emitted wire
message is a single message whose body is the JSON-serialized *string* of
the multi-part array — a `\x7btype:"text"\x7d` entry for the joined text
(when non-empty) followed by one `\x7btype:"image_url"\x7d` entry per
image part with a `data:<mime>;base64,<data>` url. -/
theorem c8_theorem (role : String) (parts : List GPart)
    (hfr : functionResponsesOf parts = [])
    (hfc : ¬(role = "model" ∧ functionCallsOf parts ≠ []))
    (himg : imagePartsOf parts ≠ []) :
    messagesOfContent ⟨role, parts⟩ =
      [{ role := if role = "model" then "assistant" else "user",
         content := .strC (jsonStringify (.arr
           ((if !(textPartsOf parts).isEmpty then
               [JValue.obj [("type", .str "text"),
                 ("text", .str (joinNl (textPartsOf parts)))]]
             else []) ++ imagePartsOf parts))) }] ∧
    (∀ mimeType data, imageEntry mimeType data =
      .obj [("type", .str "image_url"),
            ("image_url", .obj
              [("url", .str ("data:" ++ mimeType ++ ";base64," ++ data))])]) := by
  constructor
  · have hfc' : (decide (role = "model") && !(functionCallsOf parts).isEmpty) = false := by
      by_cases hm : role = "model"
      · have : functionCallsOf parts = [] := by
          by_contra hne
          exact hfc ⟨hm, hne⟩
        simp [hm, this]
      · simp [hm]
    have himg' : (imagePartsOf parts).isEmpty = false := by
      simpa [List.isEmpty_iff] using himg
    unfold messagesOfContent
    simp only [hfr, List.isEmpty_nil, Bool.not_true, Bool.false_eq_true, if_false,
      hfc', himg', Bool.not_false, if_true]
  · intro mimeType data; rfl

/-- Claim C8 witness: `c8_theorem` instantiated on the concrete content. -/
theorem c8_witness :
    functionResponsesOf c8content.parts = [] ∧
    imagePartsOf c8content.parts ≠ [] ∧
    messagesOfContent c8content =
      [{ role := "user",
         content := .strC (jsonStringify (.arr
           [JValue.obj [("type", .str "text"), ("text", .str "look")],
            imageEntry "image/png" "AAAA"])) }] := by
  refine ⟨rfl, by simp [c8content, imagePartsOf, getSupportedModalities, imageEntry], ?_⟩
  have h := (c8_theorem ("user") c8content.parts rfl
    (by simp [c8content]) (by simp [c8content, imagePartsOf, getSupportedModalities])).1
  simpa [c8content, textPartsOf, imagePartsOf, getSupportedModalities, joinNl] using h

/-!
Claim C4 — JSON response-mode rewriting.
-/

/-- Concrete JSON-mode request whose final content has role `model`. -/
def c4request : GenerateContentParameters :=
  { model := "m",
    contents := [{ role := "model", parts := [.text "hi"] }],
    config := some { responseMimeType := some "application/json" } }

/-- Claim C4 counterexample: for a JSON-mode request whose final content
entry is not a user message, the contents pass through unchanged — no
instruction is appended to any message — although `response_format` is
still set; the claim's "appends … to the final user message" conjunct
fails. -/
theorem c4_counterexample :
    (requestForGenerateContent c4request).contents = c4request.contents ∧
    jsonInstruction ≠ "" ∧
    (buildApiRequest (requestForGenerateContent c4request)).response_format =
      some jsonObjectFormat := by
  refine ⟨?_, by decide, ?_⟩
  · simp [requestForGenerateContent, c4request, modifyRequestForJsonResponse,
      appendJsonInstruction]
  · simp [requestForGenerateContent, c4request, modifyRequestForJsonResponse,
      appendJsonInstruction, buildApiRequest, jsTruthy, jsonObjectFormat]

/-- Claim C4 (amended): for a JSON-mode request whose final content entry
has role `user` and a non-empty part list, the translation appends the
strict-JSON instruction to that entry (onto its last part's truthy text,
else as a new text part) and sets `response_format = \x7btype:
"json_object"\x7d` on the config and on the wire request body; when the
final entry is not such a user message, only the `response_format` field
is set. -/
theorem c4_theorem (request : GenerateContentParameters) (init : List GContent)
    (lastC : GContent)
    (hmime : request.config.bind (·.responseMimeType) = some "application/json")
    (hcont : request.contents = init ++ [lastC])
    (hrole : lastC.role = "user") (hparts : lastC.parts ≠ []) :
    requestForGenerateContent request = modifyRequestForJsonResponse request ∧
    (requestForGenerateContent request).contents =
      init ++ [{ lastC with parts := appendedParts lastC.parts }] ∧
    (requestForGenerateContent request).config =
      some { (request.config.getD {}) with response_format := some jsonObjectFormat } ∧
    (buildApiRequest (requestForGenerateContent request)).response_format =
      some jsonObjectFormat := by
  have hfire : requestForGenerateContent request = modifyRequestForJsonResponse request := by
    simp [requestForGenerateContent, hmime]
  have hparts' : lastC.parts.isEmpty = false := by
    simpa [List.isEmpty_iff] using hparts
  have happ : appendJsonInstruction request.contents =
      init ++ [{ lastC with parts := appendedParts lastC.parts }] := by
    rw [hcont]
    unfold appendJsonInstruction
    simp [List.getLast?_concat, List.dropLast_concat, hrole, hparts']
  refine ⟨hfire, ?_, ?_, ?_⟩
  · rw [hfire]
    simpa [modifyRequestForJsonResponse] using happ
  · rw [hfire]
    simp [modifyRequestForJsonResponse]
  · rw [hfire]
    simp [modifyRequestForJsonResponse, buildApiRequest, jsTruthy, jsonObjectFormat]

/-- Concrete JSON-mode request ending in a user message (scenario S6). -/
def c4userRequest : GenerateContentParameters :=
  { model := "m",
    contents := [{ role := "user", parts := [.text "give me data"] }],
    config := some { responseMimeType := some "application/json" } }

/-- Claim C4 witness: `c4_theorem` instantiated on the S6-style request;
the instruction is appended to the final user text and the wire request
carries the JSON response format. -/
theorem c4_witness :
    (requestForGenerateContent c4userRequest).contents =
      [{ role := "user", parts := [GPart.text ("give me data" ++ jsonInstruction)] }] ∧
    (buildApiRequest (requestForGenerateContent c4userRequest)).response_format =
      some jsonObjectFormat := by
  have h := c4_theorem c4userRequest []
    { role := "user", parts := [.text "give me data"] }
    rfl rfl rfl (by simp)
  refine ⟨?_, h.2.2.2⟩
  have h2 := h.2.1
  simpa [appendedParts, jsonInstruction] using h2

/-!
Claim C5 — tool-parameter schema conversion.
-/

/-- Concrete schema with an object-valued property named `minimum`. -/
def c5schema : JValue :=
  .obj [("properties", .obj [("minimum", .obj [("type", .str "STRING")])])]

/-- Claim C5 counterexample: a property *named* `minimum` whose value is an
object is copied without recursion (the constraint-key branch fires before
the recursion branch), so its inner `type: "STRING"` is not lower-cased —
refuting the claim's "lower-cases every type string / recurses into nested
objects". -/
theorem c5_counterexample :
    convertGeminiParametersToOpenAI (some c5schema) = some c5schema ∧
    asciiLower "STRING" ≠ "STRING" := by
  constructor
  · simp [convertGeminiParametersToOpenAI, c5schema, jsTruthy, convertTypes,
      convertTypesFields, convertFieldValue, numericConstraintKey, lengthConstraintKey]
  · decide

/-- Claim C5 (amended): the schema conversion lower-cases the string value
of every `type` field it reaches, converts parseable strings under
`minimum` / `maximum` / `multipleOf` to numbers via `Number`, converts
parseable strings under `minLength` / `maxLength` / `minItems` /
`maxItems` to integers via `parseInt`, recurses into values of all other
keys and into array elements, and leaves primitives untouched — but it
does not recurse into non-string values of the constraint keys, which are
copied unchanged; the claim's example converts as stated. -/
theorem c5_theorem (k s : String) (q : ℚ) (n : Int) (v : JValue)
    (fs : List (String × JValue)) (o : List (String × JValue))
    (b : Bool) (xs : List JValue)
    (hq : jsNumberOfString s = some q) (hn : jsParseIntOfString s = some n) :
    (convertTypesFields (("type", .str s) :: fs) =
      ("type", .str (asciiLower s)) :: convertTypesFields fs) ∧
    (numericConstraintKey k = true →
      convertTypesFields ((k, .str s) :: fs) = (k, .num q) :: convertTypesFields fs) ∧
    (lengthConstraintKey k = true →
      convertTypesFields ((k, .str s) :: fs) = (k, .num (n : ℚ)) :: convertTypesFields fs) ∧
    (k ≠ "type" → numericConstraintKey k = false → lengthConstraintKey k = false →
      convertTypesFields ((k, v) :: fs) = (k, convertTypes v) :: convertTypesFields fs) ∧
    (numericConstraintKey k = true →
      convertTypesFields ((k, .obj o) :: fs) = (k, .obj o) :: convertTypesFields fs) ∧
    (convertTypes (.arr xs) = .arr (convertTypesList xs)) ∧
    (convertTypesList (v :: xs) = convertTypes v :: convertTypesList xs) ∧
    (convertTypes (.str s) = .str s ∧ convertTypes (.num q) = .num q ∧
      convertTypes (.bool b) = .bool b ∧ convertTypes .null = .null) ∧
    (convertGeminiParametersToOpenAI
        (some (.obj [("type", .str "INTEGER"), ("minimum", .str "5")])) =
      some (.obj [("type", .str "integer"), ("minimum", .num 5)])) := by
  have hnum : ∀ k', numericConstraintKey k' = true → k' ≠ "type" := by
    intro k' hk'
    simp only [numericConstraintKey, Bool.or_eq_true, decide_eq_true_eq] at hk'
    rcases hk' with (h | h) | h <;> subst h <;> decide
  have hlen : ∀ k', lengthConstraintKey k' = true →
      k' ≠ "type" ∧ numericConstraintKey k' = false := by
    intro k' hk'
    simp only [lengthConstraintKey, Bool.or_eq_true, decide_eq_true_eq] at hk'
    rcases hk' with ((h | h) | h) | h <;> subst h <;> exact ⟨by decide, by decide⟩
  have p1 : convertTypesFields (("type", .str s) :: fs) =
      ("type", .str (asciiLower s)) :: convertTypesFields fs := by
    simp [convertTypesFields, convertFieldValue]
  have p2 : numericConstraintKey k = true →
      convertTypesFields ((k, .str s) :: fs) = (k, .num q) :: convertTypesFields fs := by
    intro hk
    simp [convertTypesFields, convertFieldValue, hnum k hk, hk, hq]
  have p3 : lengthConstraintKey k = true →
      convertTypesFields ((k, .str s) :: fs) = (k, .num (n : ℚ)) :: convertTypesFields fs := by
    intro hk
    obtain ⟨hk1, hk2⟩ := hlen k hk
    simp [convertTypesFields, convertFieldValue, hk1, hk2, hk, hq, hn]
  have p4 : k ≠ "type" → numericConstraintKey k = false → lengthConstraintKey k = false →
      convertTypesFields ((k, v) :: fs) = (k, convertTypes v) :: convertTypesFields fs := by
    intro h1 h2 h3
    simp [convertTypesFields, convertFieldValue, h1, h2, h3]
  have p5 : numericConstraintKey k = true →
      convertTypesFields ((k, .obj o) :: fs) = (k, .obj o) :: convertTypesFields fs := by
    intro hk
    simp [convertTypesFields, convertFieldValue, hnum k hk, hk]
  have p6 : convertTypes (.arr xs) = .arr (convertTypesList xs) := by
    simp [convertTypes]
  have p7 : convertTypesList (v :: xs) = convertTypes v :: convertTypesList xs := by
    simp [convertTypesList]
  have p8a : convertTypes (.str s) = .str s := by simp [convertTypes]
  have p8b : convertTypes (.num q) = .num q := by simp [convertTypes]
  have p8c : convertTypes (.bool b) = .bool b := by simp [convertTypes]
  have p8d : convertTypes .null = .null := by simp [convertTypes]
  have p9 : convertGeminiParametersToOpenAI
      (some (.obj [("type", .str "INTEGER"), ("minimum", .str "5")])) =
      some (.obj [("type", .str "integer"), ("minimum", .num 5)]) := by
    have h5 : jsNumberOfString "5" = some 5 := by
      simp [jsNumberOfString, takeDigits, isDigitCh, digitsToNat]
    have hInt : asciiLower "INTEGER" = "integer" := by decide
    simp [convertGeminiParametersToOpenAI, jsTruthy, convertTypes, convertTypesFields,
      convertFieldValue, numericConstraintKey, lengthConstraintKey, h5, hInt]
  exact ⟨p1, p2, p3, p4, p5, p6, p7, ⟨p8a, p8b, p8c, p8d⟩, p9⟩

/-- Claim C5 witness: `c5_theorem` instantiated on the claim's example
field values (`minimum: "5"` and a sample recursion field). -/
theorem c5_witness :
    jsNumberOfString "5" = some 5 ∧
    convertTypesFields [("minimum", .str "5")] = [("minimum", JValue.num 5)] ∧
    convertGeminiParametersToOpenAI
        (some (.obj [("type", .str "INTEGER"), ("minimum", .str "5")])) =
      some (.obj [("type", .str "integer"), ("minimum", .num 5)]) := by
  have h5 : jsNumberOfString "5" = some 5 := by
    simp [jsNumberOfString, takeDigits, isDigitCh, digitsToNat]
  have h5i : jsParseIntOfString "5" = some 5 := by
    simp [jsParseIntOfString, takeDigits, isDigitCh, digitsToNat]
  have h := c5_theorem "minimum" "5" 5 5 .null [] [] true [] h5 h5i
  refine ⟨h5, ?_, h.2.2.2.2.2.2.2.2⟩
  have h2 := h.2.1 (by decide)
  simpa [convertTypesFields, convertFieldValue] using h2

/-!
Claim C9 — unparseable tool-call arguments.
-/

/-- Concrete wire response whose tool call carries an empty arguments
string. -/
def c9response : WireResponse :=
  { choices :=
      [{ message := some
           { tool_calls := some
               [{ id := some "t1",
                  function := some { name := some "f", arguments := some "" } }] },
         finish_reason := some "tool_calls" }] }

/-- Claim C9 counterexample: an empty arguments string is not valid JSON
(`JSON.parse('')` throws), and the tool call is emitted with empty args —
but no parse error is logged, because the truthiness guard skips the parse
for the empty string; the claim's "logs the parse error" conjunct fails. -/
theorem c9_counterexample :
    convertToGeminiResponse c9response =
      .ok ({ candidates :=
               [{ index := 0,
                  parts := [GPart.functionCall (some "t1") (some "f") (some (.obj []))],
                  finishReason := .STOP }],
             usageMetadata := none }, []) ∧
    jsonParse "" = none := by
  constructor
  · simp [convertToGeminiResponse, c9response, candidateOfWireChoice,
      partsOfWireToolCalls, argsOfWireArguments, convertFinishReason]
  · rfl

/-- Claim C9 (amended): a tool call whose non-empty arguments string fails
to parse is still emitted, with an empty args map and a logged parse error,
both in the non-streaming translation and in the streaming terminal
emission; an *empty* arguments string also yields the empty args map but
logs nothing; and no exception is raised to the caller for this condition
(only an error body throws). -/
theorem c9_theorem (s msg : String) (id nm : Option String) (i : Int)
    (hs : s ≠ "") (hparse : jsonParse s = none) (hnm : truthyStr nm = true) :
    argsOfWireArguments (some s) msg = (.obj [], [msg]) ∧
    argsOfWireArguments (some "") msg = (.obj [], []) ∧
    partsOfWireToolCalls [{ id := id, function := some { name := nm, arguments := some s } }] =
      ([GPart.functionCall id nm (some (.obj []))], ["Failed to parse function arguments"]) ∧
    emitFunctionCallParts [(i, { id := id, name := nm, arguments := s })] =
      ([GPart.functionCall id nm (some (.obj []))],
       ["Failed to parse final tool call arguments"]) ∧
    (∀ response : WireResponse, response.error = none →
      ∃ out, convertToGeminiResponse response = Except.ok out) := by
  refine ⟨?_, ?_, ?_, ?_, ?_⟩
  · simp [argsOfWireArguments, hs, hparse]
  · simp [argsOfWireArguments]
  · simp [partsOfWireToolCalls, argsOfWireArguments, hs, hparse]
  · simp [emitFunctionCallParts, emitStep, argsOfWireArguments, hnm, hs, hparse]
  · intro response herr
    cases hconv : convertToGeminiResponse response with
    | error e =>
        exfalso
        simp [convertToGeminiResponse, herr] at hconv
    | ok out => exact ⟨out, rfl⟩

/-- Claim C9 witness: `c9_theorem` instantiated on the unparseable
arguments string `"x"`. -/
theorem c9_witness :
    ("x" : String) ≠ "" ∧ jsonParse "x" = none ∧ truthyStr (some "f") = true ∧
    partsOfWireToolCalls
        [{ id := some "t1", function := some { name := some "f", arguments := some "x" } }] =
      ([GPart.functionCall (some "t1") (some "f") (some (.obj []))],
       ["Failed to parse function arguments"]) ∧
    emitFunctionCallParts [((0 : Int), { id := some "t1", name := some "f", arguments := "x" })] =
      ([GPart.functionCall (some "t1") (some "f") (some (.obj []))],
       ["Failed to parse final tool call arguments"]) :=
  ⟨by decide, rfl, by decide,
   (c9_theorem ("x") ("m") (some "t1") (some "f") 0 (by decide) rfl (by decide)).2.2.1,
   (c9_theorem ("x") ("m") (some "t1") (some "f") 0 (by decide) rfl (by decide)).2.2.2.1⟩

/-!
Claim C10 — one canonical chunk per parsed data line.
-/

theorem runStreamLines_length (lines : List String) : ∀ acc : AccState,
    (∀ p ∈ dataPayloads lines, ∀ v, jsonParse p = some v →
      (streamChunkOfJson v).isSome = true) →
    (runStreamLines acc lines).1.length =
      ((dataPayloads lines).filterMap jsonParse).length := by
  induction lines with
  | nil =>
      intro acc _
      simp [runStreamLines, dataPayloads]
  | cons line rest ih =>
      intro acc h
      by_cases hd : strStartsWith line "data: "
      · by_cases hdone : strDrop line 6 = "[DONE]"
        · simp [runStreamLines, dataPayloads, hd, hdone]
        · have hpay : dataPayloads (line :: rest) =
              strDrop line 6 :: dataPayloads rest := by
            simp [dataPayloads, hd, hdone]
          have hrest : ∀ p ∈ dataPayloads rest, ∀ v, jsonParse p = some v →
              (streamChunkOfJson v).isSome = true := by
            intro p hp v hv
            exact h p (by rw [hpay]; exact List.mem_cons_of_mem _ hp) v hv
          cases hp : jsonParse (strDrop line 6) with
          | none =>
              simp [runStreamLines, hd, hdone, hp, hpay, ih acc hrest]
          | some v =>
              have hsome : (streamChunkOfJson v).isSome = true :=
                h _ (by rw [hpay]; exact List.mem_cons_self _ _) v hp
              cases hdec : streamChunkOfJson v with
              | none => rw [hdec] at hsome; simp at hsome
              | some chunk =>
                  simp [runStreamLines, hd, hdone, hp, hdec, hpay,
                    ih (convertStreamChunkToGeminiFormat acc chunk).1 hrest]
      · have hpay : dataPayloads (line :: rest) = dataPayloads rest := by
          simp [dataPayloads, hd]
        have hrest : ∀ p ∈ dataPayloads rest, ∀ v, jsonParse p = some v →
            (streamChunkOfJson v).isSome = true := by
          intro p hp v hv
          exact h p (by rw [hpay]; exact hp) v hv
        simp [runStreamLines, hd, hpay, ih acc hrest]

/-- Claim C10 (confirmed): on a stream whose parseable payloads are
protocol-shaped, the generator yields exactly one canonical chunk per
successfully JSON-parsed data line before the `[DONE]` sentinel; and a
chunk carrying neither a truthy text delta nor a truthy finish reason —
for example one carrying only tool-call fragments — yields a canonical
chunk with an empty parts list and finish reason
`FINISH_REASON_UNSPECIFIED`. -/
theorem c10_theorem (lines : List String)
    (h : ∀ p ∈ dataPayloads lines, ∀ v, jsonParse p = some v →
      (streamChunkOfJson v).isSome = true) :
    (parseStreamResponse lines).1.length =
      ((dataPayloads lines).filterMap jsonParse).length ∧
    (∀ (acc : AccState) (chunk : StreamChunk),
      truthyStr (chunk.choices.head?.bind (·.deltaContent)) = false →
      truthyStr (chunk.choices.head?.bind (·.finish_reason)) = false →
      (convertStreamChunkToGeminiFormat acc chunk).2.1.candidates =
        [{ index := 0, parts := [], finishReason := .FINISH_REASON_UNSPECIFIED }]) := by
  constructor
  · exact runStreamLines_length lines [] h
  · intro acc chunk h1 h2
    cases hch : chunk.choices.head? with
    | none => simp [convertStreamChunkToGeminiFormat, hch]
    | some c =>
        rw [hch] at h1 h2
        simp only [Option.some_bind] at h1 h2
        simp [convertStreamChunkToGeminiFormat, hch, h1, h2]

/-- Data payload carrying only a tool-call arguments fragment. -/
def c10payload : String :=
  "\x7b\"choices\":[\x7b\"delta\":\x7b\"tool_calls\":[\x7b\"function\":\x7b\"arguments\":\"a\"\x7d\x7d]\x7d\x7d]\x7d"

/-- Concrete stream lines: one fragment-only chunk, then the sentinel. -/
def c10lines : List String := ["data: " ++ c10payload, "data: [DONE]"]

/-- The decoded shape of `c10payload`. -/
def c10chunk : StreamChunk :=
  { choices := [{ toolCallDeltas := some [{ argumentsFrag := some "a" }] }] }

/-- Claim C10 witness: `c10_theorem` instantiated on a concrete stream
whose only data line carries a tool-call fragment and no text or finish
reason. -/
theorem c10_witness :
    (parseStreamResponse c10lines).1.length =
      ((dataPayloads c10lines).filterMap jsonParse).length ∧
    (convertStreamChunkToGeminiFormat [] c10chunk).2.1.candidates =
      [{ index := 0, parts := [], finishReason := .FINISH_REASON_UNSPECIFIED }] := by
  have hmapped : (jsonParse c10payload).map
      (fun v => (streamChunkOfJson v).isSome) = some true := rfl
  have h : ∀ p ∈ dataPayloads c10lines, ∀ v, jsonParse p = some v →
      (streamChunkOfJson v).isSome = true := by
    have hpays : dataPayloads c10lines = [c10payload] := rfl
    intro p hp v hv
    rw [hpays] at hp
    simp only [List.mem_singleton] at hp
    subst hp
    have := hmapped
    rw [hv] at this
    simpa using this
  exact ⟨(c10_theorem c10lines h).1,
    (c10_theorem c10lines h).2 [] c10chunk (by decide) (by decide)⟩

/-!
Claim C1 — streaming tool-call accumulation: statement vocabulary.
-/

/-- All `tool_calls` delta entries of a stream, in arrival order. -/
def deltasOfStream : List StreamChunk → List ToolCallDelta
  | [] => []
  | c :: rest => chunkDeltas c ++ deltasOfStream rest

/-- First-occurrence deduplication (JS `Map` insertion order). -/
def firstDedup : List Int → List Int
  | [] => []
  | x :: xs => x :: firstDedup (xs.filter (fun y => y ≠ x))
termination_by l => l.length
decreasing_by simp_wf; exact Nat.lt_succ_of_le (List.length_filter_le _ _)

/-- The distinct indices observed in `tool_calls` deltas across a stream,
in first-occurrence order. -/
def observedIndices (cs : List StreamChunk) : List Int :=
  firstDedup ((deltasOfStream cs).map deltaIndex)

/-- The deltas addressed to one index. -/
def deltasForIndex (ds : List ToolCallDelta) (i : Int) : List ToolCallDelta :=
  ds.filter (fun d => deltaIndex d = i)

/-- The accumulator entry index `i` holds after the whole delta list. -/
def specEntryFor (ds : List ToolCallDelta) (i : Int) : AccEntry :=
  (deltasForIndex ds i).foldl applyDelta {}

/-- Truthy arguments fragments addressed to one index, in order. -/
def fragsFor (ds : List ToolCallDelta) (i : Int) : List String :=
  (deltasForIndex ds i).filterMap
    (fun d => if truthyStr d.argumentsFrag then d.argumentsFrag else none)

/-- Concatenation of a string list. -/
def joinAll : List String → String
  | [] => ""
  | s :: rest => s ++ joinAll rest

/-- Tool-call part test. -/
def isFunctionCallPart : GPart → Bool
  | .functionCall _ _ _ => true
  | _ => false

/-- The args value produced from an accumulated arguments buffer: empty
buffer or parse failure give the empty map. -/
def argsFromBuffer (s : String) : JValue :=
  if s = "" then .obj [] else (jsonParse s).getD (.obj [])

/-!
Claim C1 — supporting lemmas.
-/

theorem lookupAssocI_map (L : List Int) (g : Int → AccEntry) (j : Int) :
    lookupAssocI (L.map fun i => (i, g i)) j = if j ∈ L then some (g j) else none := by
  induction L with
  | nil => simp [lookupAssocI]
  | cons a L ih =>
      by_cases ha : a = j
      · subst ha
        simp [lookupAssocI]
      · have ha' : j ≠ a := fun h => ha h.symm
        simp [lookupAssocI, ha, ih, ha']

theorem setAssocI_map_mem (L : List Int) (g : Int → AccEntry) (j : Int) (v : AccEntry)
    (hnd : L.Nodup) (hj : j ∈ L) :
    setAssocI (L.map fun i => (i, g i)) j v =
      L.map (fun i => (i, if i = j then v else g i)) := by
  induction L with
  | nil => cases hj
  | cons a L ih =>
      simp only [List.nodup_cons] at hnd
      by_cases ha : a = j
      · subst ha
        simp only [List.map_cons, setAssocI, if_pos rfl, if_pos]
        congr 1
        apply List.map_congr_left
        intro i hi
        have : i ≠ a := fun h => hnd.1 (h ▸ hi)
        simp [this]
      · have hj' : j ∈ L := by
          cases hj with
          | head => exact absurd rfl ha
          | tail _ h => exact h
        simp [setAssocI, ha, ih hnd.2 hj']

theorem setAssocI_map_not_mem (L : List Int) (g : Int → AccEntry) (j : Int) (v : AccEntry)
    (hj : j ∉ L) :
    setAssocI (L.map fun i => (i, g i)) j v = (L.map fun i => (i, g i)) ++ [(j, v)] := by
  induction L with
  | nil => simp [setAssocI]
  | cons a L ih =>
      simp only [List.mem_cons] at hj
      push_neg at hj
      have : a ≠ j := fun h => hj.1 h.symm
      simp [setAssocI, this, ih hj.2]

theorem firstDedup_concat_aux (n : Nat) : ∀ xs : List Int, xs.length ≤ n → ∀ x : Int,
    firstDedup (xs ++ [x]) = if x ∈ xs then firstDedup xs else firstDedup xs ++ [x] := by
  induction n with
  | zero =>
      intro xs hlen x
      have : xs = [] := List.length_eq_zero.mp (Nat.le_zero.mp hlen)
      subst this
      simp [firstDedup]
  | succ n ih =>
      intro xs hlen x
      cases xs with
      | nil => simp [firstDedup]
      | cons y ys =>
          simp only [List.length_cons, Nat.succ_le_succ_iff] at hlen
          by_cases hxy : x = y
          · subst hxy
            have hfil : (ys ++ [x]).filter (fun z => z ≠ x) = ys.filter (fun z => z ≠ x) := by
              simp [List.filter_append]
            simp [firstDedup, List.cons_append, hfil]
          · have hfil : (ys ++ [x]).filter (fun z => z ≠ y) =
                ys.filter (fun z => z ≠ y) ++ [x] := by
              simp [List.filter_append, hxy]
            have hlen2 : (ys.filter (fun z => z ≠ y)).length ≤ n :=
              le_trans (List.length_filter_le _ _) hlen
            rw [List.cons_append, firstDedup, hfil, ih _ hlen2 x, firstDedup]
            have hmem : x ∈ ys.filter (fun z => z ≠ y) ↔ x ∈ ys := by
              simp [List.mem_filter, hxy]
            by_cases hx : x ∈ ys
            · simp [hmem, hx, hxy]
            · simp [hmem, hx, hxy]

theorem firstDedup_concat (xs : List Int) (x : Int) :
    firstDedup (xs ++ [x]) = if x ∈ xs then firstDedup xs else firstDedup xs ++ [x] :=
  firstDedup_concat_aux xs.length xs le_rfl x

theorem mem_firstDedup_aux (n : Nat) : ∀ xs : List Int, xs.length ≤ n → ∀ j : Int,
    (j ∈ firstDedup xs ↔ j ∈ xs) := by
  induction n with
  | zero =>
      intro xs hlen j
      have : xs = [] := List.length_eq_zero.mp (Nat.le_zero.mp hlen)
      subst this
      simp [firstDedup]
  | succ n ih =>
      intro xs hlen j
      cases xs with
      | nil => simp [firstDedup]
      | cons y ys =>
          simp only [List.length_cons, Nat.succ_le_succ_iff] at hlen
          rw [firstDedup]
          have hlen2 : (ys.filter (fun z => z ≠ y)).length ≤ n :=
            le_trans (List.length_filter_le _ _) hlen
          by_cases hjy : j = y
          · simp [hjy]
          · rw [List.mem_cons, List.mem_cons, ih _ hlen2 j, List.mem_filter]
            simp [hjy]

theorem mem_firstDedup (xs : List Int) (j : Int) : j ∈ firstDedup xs ↔ j ∈ xs :=
  mem_firstDedup_aux xs.length xs le_rfl j

theorem firstDedup_nodup_aux (n : Nat) : ∀ xs : List Int, xs.length ≤ n →
    (firstDedup xs).Nodup := by
  induction n with
  | zero =>
      intro xs hlen
      have : xs = [] := List.length_eq_zero.mp (Nat.le_zero.mp hlen)
      subst this
      simp [firstDedup]
  | succ n ih =>
      intro xs hlen
      cases xs with
      | nil => simp [firstDedup]
      | cons y ys =>
          simp only [List.length_cons, Nat.succ_le_succ_iff] at hlen
          rw [firstDedup]
          have hlen2 : (ys.filter (fun z => z ≠ y)).length ≤ n :=
            le_trans (List.length_filter_le _ _) hlen
          refine List.nodup_cons.mpr ⟨?_, ih _ hlen2⟩
          intro hy
          have := (mem_firstDedup _ _).mp hy
          simp [List.mem_filter] at this

theorem firstDedup_nodup (xs : List Int) : (firstDedup xs).Nodup :=
  firstDedup_nodup_aux xs.length xs le_rfl

theorem deltasForIndex_concat (ds : List ToolCallDelta) (d : ToolCallDelta) (i : Int) :
    deltasForIndex (ds ++ [d]) i =
      deltasForIndex ds i ++ (if deltaIndex d = i then [d] else []) := by
  by_cases h : deltaIndex d = i <;> simp [deltasForIndex, List.filter_append, h]

theorem specEntryFor_concat (ds : List ToolCallDelta) (d : ToolCallDelta) (i : Int) :
    specEntryFor (ds ++ [d]) i =
      if deltaIndex d = i then applyDelta (specEntryFor ds i) d else specEntryFor ds i := by
  by_cases h : deltaIndex d = i <;>
    simp [specEntryFor, deltasForIndex_concat, h, List.foldl_append]

theorem specEntryFor_not_mem (ds : List ToolCallDelta) (i : Int)
    (h : i ∉ ds.map deltaIndex) : specEntryFor ds i = {} := by
  have hnil : deltasForIndex ds i = [] := by
    apply List.filter_eq_nil_iff.mpr
    intro d hd
    simp only [decide_eq_true_eq]
    intro hdi
    exact h (hdi ▸ List.mem_map_of_mem deltaIndex hd)
  simp [specEntryFor, hnil]

theorem accumulated_state_eq (ds : List ToolCallDelta) :
    ds.foldl accUpdate [] =
      (firstDedup (ds.map deltaIndex)).map (fun i => (i, specEntryFor ds i)) := by
  induction ds using List.reverseRecOn with
  | nil => simp [firstDedup]
  | append_singleton ds d ih =>
      rw [List.foldl_append, List.foldl_cons, List.foldl_nil, ih]
      unfold accUpdate
      have hmapcat : (ds ++ [d]).map deltaIndex = ds.map deltaIndex ++ [deltaIndex d] := by
        simp
      by_cases hmem : deltaIndex d ∈ ds.map deltaIndex
      · have hmemL : deltaIndex d ∈ firstDedup (ds.map deltaIndex) :=
          (mem_firstDedup _ _).mpr hmem
        rw [lookupAssocI_map, if_pos hmemL, Option.getD_some,
          setAssocI_map_mem _ _ _ _ (firstDedup_nodup _) hmemL,
          hmapcat, firstDedup_concat, if_pos hmem]
        apply List.map_congr_left
        intro i hiL
        by_cases hij : i = deltaIndex d
        · subst hij
          simp [specEntryFor_concat]
        · have : deltaIndex d ≠ i := fun h => hij h.symm
          simp [specEntryFor_concat, this, hij]
      · have hmemL : deltaIndex d ∉ firstDedup (ds.map deltaIndex) := by
          rw [mem_firstDedup]
          exact hmem
        rw [lookupAssocI_map, if_neg hmemL, Option.getD_none,
          setAssocI_map_not_mem _ _ _ _ hmemL,
          hmapcat, firstDedup_concat, if_neg hmem, List.map_append]
        congr 1
        · apply List.map_congr_left
          intro i hiL
          have hi : i ∈ ds.map deltaIndex := (mem_firstDedup _ _).mp hiL
          have : deltaIndex d ≠ i := by
            intro h
            exact hmem (h ▸ hi)
          simp [specEntryFor_concat, this]
        · simp [specEntryFor_concat, specEntryFor_not_mem ds _ hmem]

theorem argsOfWireArguments_fst (s msg : String) :
    (argsOfWireArguments (some s) msg).1 = argsFromBuffer s := by
  by_cases h : s = ""
  · simp [argsOfWireArguments, argsFromBuffer, h]
  · cases hp : jsonParse s <;> simp [argsOfWireArguments, argsFromBuffer, h, hp]

theorem emitStep_foldl (acc : AccState) : ∀ init : List GPart × List String,
    (acc.foldl emitStep init).1 =
      init.1 ++ (acc.filter (fun ie => truthyStr ie.2.name)).map
        (fun ie => GPart.functionCall ie.2.id ie.2.name
          (some (argsFromBuffer ie.2.arguments))) := by
  induction acc with
  | nil => intro init; simp
  | cons ie rest ih =>
      intro init
      rw [List.foldl_cons, ih]
      by_cases h : truthyStr ie.2.name
      · simp [emitStep, h, argsOfWireArguments_fst]
      · simp [emitStep, h]

theorem emitFunctionCallParts_fst (acc : AccState) :
    (emitFunctionCallParts acc).1 =
      (acc.filter (fun ie => truthyStr ie.2.name)).map
        (fun ie => GPart.functionCall ie.2.id ie.2.name
          (some (argsFromBuffer ie.2.arguments))) := by
  rw [emitFunctionCallParts, emitStep_foldl]
  rfl

theorem emitFunctionCallParts_all_fc (acc : AccState) :
    ∀ p ∈ (emitFunctionCallParts acc).1, isFunctionCallPart p = true := by
  rw [emitFunctionCallParts_fst]
  intro p hp
  obtain ⟨ie, _, rfl⟩ := List.mem_map.mp hp
  rfl

theorem foldl_applyDelta_arguments (ds : List ToolCallDelta) : ∀ e : AccEntry,
    (ds.foldl applyDelta e).arguments =
      e.arguments ++ joinAll (ds.filterMap fun d =>
        if truthyStr d.argumentsFrag then d.argumentsFrag else none) := by
  induction ds with
  | nil => intro e; simp [joinAll]
  | cons d rest ih =>
      intro e
      rw [List.foldl_cons, ih]
      by_cases h : truthyStr d.argumentsFrag
      · cases hfrag : d.argumentsFrag with
        | none => rw [hfrag] at h; simp [truthyStr] at h
        | some a =>
            rw [hfrag] at h
            have harg : (applyDelta e d).arguments = e.arguments ++ a := by
              simp [applyDelta, hfrag, h, apply_ite AccEntry.arguments]
            rw [harg, List.filterMap_cons]
            simp [hfrag, h, joinAll, String.append_assoc]
      · have harg : (applyDelta e d).arguments = e.arguments := by
          simp [applyDelta, h, apply_ite AccEntry.arguments]
        rw [harg, List.filterMap_cons]
        simp [h]

theorem specEntryFor_arguments (ds : List ToolCallDelta) (i : Int) :
    (specEntryFor ds i).arguments = joinAll (fragsFor ds i) := by
  simp [specEntryFor, fragsFor, foldl_applyDelta_arguments]

theorem convertStream_state_no_finish (acc : AccState) (chunk : StreamChunk)
    (h : truthyStr (chunk.choices.head?.bind (·.finish_reason)) = false) :
    (convertStreamChunkToGeminiFormat acc chunk).1 = accumulateChunk acc chunk := by
  cases hch : chunk.choices.head? with
  | none => simp [convertStreamChunkToGeminiFormat, hch, accumulateChunk, chunkDeltas]
  | some c =>
      rw [hch] at h
      simp only [Option.some_bind] at h
      cases htc : c.toolCallDeltas <;>
        simp [convertStreamChunkToGeminiFormat, hch, h, accumulateChunk, chunkDeltas, htc]

theorem convertStream_parts_no_finish (acc : AccState) (chunk : StreamChunk)
    (h : truthyStr (chunk.choices.head?.bind (·.finish_reason)) = false) :
    ∀ cand ∈ (convertStreamChunkToGeminiFormat acc chunk).2.1.candidates,
      cand.parts.filter isFunctionCallPart = [] := by
  intro cand hcand
  cases hch : chunk.choices.head? with
  | none =>
      simp [convertStreamChunkToGeminiFormat, hch] at hcand
      simp [hcand]
  | some c =>
      rw [hch] at h
      simp only [Option.some_bind] at h
      simp [convertStreamChunkToGeminiFormat, hch, h] at hcand
      by_cases hct : truthyStr c.deltaContent <;>
        simp [hct, isFunctionCallPart] at hcand <;> simp [hcand, isFunctionCallPart]

theorem convertStream_finish (acc : AccState) (chunk : StreamChunk)
    (h : truthyStr (chunk.choices.head?.bind (·.finish_reason)) = true) :
    (convertStreamChunkToGeminiFormat acc chunk).1 = [] ∧
    (convertStreamChunkToGeminiFormat acc chunk).2.1.candidates.map
        (fun cand => cand.parts.filter isFunctionCallPart) =
      [(emitFunctionCallParts (accumulateChunk acc chunk)).1] := by
  cases hch : chunk.choices.head? with
  | none =>
      rw [hch] at h
      simp [truthyStr] at h
  | some c =>
      rw [hch] at h
      simp only [Option.some_bind] at h
      have hacc : (match c.toolCallDeltas with
          | some ds => ds.foldl accUpdate acc
          | none => acc) = accumulateChunk acc chunk := by
        cases htc : c.toolCallDeltas <;> simp [accumulateChunk, chunkDeltas, hch, htc]
      have hfc : (emitFunctionCallParts (accumulateChunk acc chunk)).1.filter
          isFunctionCallPart = (emitFunctionCallParts (accumulateChunk acc chunk)).1 :=
        List.filter_eq_self.mpr (emitFunctionCallParts_all_fc _)
      constructor
      · simp [convertStreamChunkToGeminiFormat, hch, h, hacc]
      · by_cases hct : truthyStr c.deltaContent <;>
          simp [convertStreamChunkToGeminiFormat, hch, h, hacc, hct,
            List.filter_append, isFunctionCallPart, hfc]

theorem processChunksAux_append (xs ys : List StreamChunk) : ∀ acc : AccState,
    (processChunksAux acc (xs ++ ys)).1 =
      (processChunksAux acc xs).1 ++
        (processChunksAux (processChunksAux acc xs).2.1 ys).1 ∧
    (processChunksAux acc (xs ++ ys)).2.1 =
      (processChunksAux (processChunksAux acc xs).2.1 ys).2.1 := by
  induction xs with
  | nil => intro acc; simp [processChunksAux]
  | cons x xs ih =>
      intro acc
      refine ⟨?_, ?_⟩
      · simp only [List.cons_append, processChunksAux, List.append_eq]
        rw [(ih (convertStreamChunkToGeminiFormat acc x).1).1]
      · simp only [List.cons_append, processChunksAux, List.append_eq]
        rw [(ih (convertStreamChunkToGeminiFormat acc x).1).2]

theorem processChunksAux_length (cs : List StreamChunk) : ∀ acc : AccState,
    (processChunksAux acc cs).1.length = cs.length := by
  induction cs with
  | nil => intro acc; simp [processChunksAux]
  | cons x cs ih => intro acc; simp [processChunksAux, ih]

theorem processChunksAux_no_finish (cs : List StreamChunk) : ∀ acc : AccState,
    (∀ x ∈ cs, truthyStr (x.choices.head?.bind (·.finish_reason)) = false) →
    (processChunksAux acc cs).2.1 = cs.foldl accumulateChunk acc ∧
    ∀ r ∈ (processChunksAux acc cs).1, ∀ cand ∈ r.candidates,
      cand.parts.filter isFunctionCallPart = [] := by
  induction cs with
  | nil => intro acc _; simp [processChunksAux]
  | cons x cs ih =>
      intro acc h
      have hx := h x (List.mem_cons_self x cs)
      have hrest := fun y hy => h y (List.mem_cons_of_mem x hy)
      constructor
      · simp only [processChunksAux, List.foldl_cons]
        rw [convertStream_state_no_finish acc x hx]
        exact (ih _ hrest).1
      · intro r hr cand hcand
        simp only [processChunksAux, List.mem_cons] at hr
        cases hr with
        | inl hr0 =>
            subst hr0
            exact convertStream_parts_no_finish acc x hx cand hcand
        | inr hr1 =>
            rw [convertStream_state_no_finish acc x hx] at hr1
            exact (ih _ hrest).2 r hr1 cand hcand

theorem foldl_accumulateChunk (cs : List StreamChunk) : ∀ acc : AccState,
    cs.foldl accumulateChunk acc = (deltasOfStream cs).foldl accUpdate acc := by
  induction cs with
  | nil => intro acc; rfl
  | cons c cs ih =>
      intro acc
      simp [deltasOfStream, List.foldl_append, accumulateChunk, ih]

/-- Claim C1 (amended): in a stream whose terminal chunk is the first one
with a truthy `finish_reason`, no tool-call part is emitted in any earlier
canonical chunk; each wire chunk yields exactly one canonical chunk; the
terminal canonical chunk carries exactly one tool-call part per distinct
index whose accumulated function name is truthy (an index that never
received a name is dropped), each such index exactly once in
first-observation order, with the id and name the accumulator holds and
args parsed from the concatenation of that index's arguments fragments;
and the accumulator is cleared afterwards. -/
theorem c1_theorem (pre : List StreamChunk) (c : StreamChunk)
    (hpre : ∀ x ∈ pre, truthyStr (x.choices.head?.bind (·.finish_reason)) = false)
    (hc : truthyStr (c.choices.head?.bind (·.finish_reason)) = true) :
    (processChunks (pre ++ [c])).1.length = pre.length + 1 ∧
    (∀ k, k < pre.length → ∀ r, (processChunks (pre ++ [c])).1[k]? = some r →
      ∀ cand ∈ r.candidates, cand.parts.filter isFunctionCallPart = []) ∧
    (∀ r, (processChunks (pre ++ [c])).1[pre.length]? = some r →
      r.candidates.map (fun cand => cand.parts.filter isFunctionCallPart) =
        [((observedIndices (pre ++ [c])).filter
            (fun i => truthyStr (specEntryFor (deltasOfStream (pre ++ [c])) i).name)).map
          (fun i => GPart.functionCall
            (specEntryFor (deltasOfStream (pre ++ [c])) i).id
            (specEntryFor (deltasOfStream (pre ++ [c])) i).name
            (some (argsFromBuffer
              (specEntryFor (deltasOfStream (pre ++ [c])) i).arguments)))]) ∧
    ((observedIndices (pre ++ [c])).filter
        (fun i => truthyStr (specEntryFor (deltasOfStream (pre ++ [c])) i).name)).Nodup ∧
    (∀ i : Int, (specEntryFor (deltasOfStream (pre ++ [c])) i).arguments =
      joinAll (fragsFor (deltasOfStream (pre ++ [c])) i)) ∧
    (processChunks (pre ++ [c])).2.1 = [] := by
  have hsplit := processChunksAux_append pre [c] ([] : AccState)
  have hnf := processChunksAux_no_finish pre ([] : AccState) hpre
  have hlenS : (processChunksAux ([] : AccState) pre).1.length = pre.length :=
    processChunksAux_length pre []
  have hconv := convertStream_finish (processChunksAux ([] : AccState) pre).2.1 c hc
  have hterm1 : (processChunksAux (processChunksAux ([] : AccState) pre).2.1 [c]).1 =
      [(convertStreamChunkToGeminiFormat
        (processChunksAux ([] : AccState) pre).2.1 c).2.1] := by
    simp [processChunksAux]
  have hterm2 : (processChunksAux (processChunksAux ([] : AccState) pre).2.1 [c]).2.1 =
      (convertStreamChunkToGeminiFormat
        (processChunksAux ([] : AccState) pre).2.1 c).1 := by
    simp [processChunksAux]
  have haccT : accumulateChunk (processChunksAux ([] : AccState) pre).2.1 c =
      (deltasOfStream (pre ++ [c])).foldl accUpdate [] := by
    rw [hnf.1]
    have hstep : accumulateChunk (pre.foldl accumulateChunk []) c =
        (pre ++ [c]).foldl accumulateChunk [] := by
      rw [List.foldl_append, List.foldl_cons, List.foldl_nil]
    rw [hstep, foldl_accumulateChunk]
  refine ⟨?_, ?_, ?_, ?_, ?_, ?_⟩
  · rw [processChunks, hsplit.1, List.length_append, hlenS, hterm1]
    rfl
  · intro k hk r hr cand hcand
    rw [processChunks, hsplit.1] at hr
    rw [List.getElem?_append] at hr
    rw [if_pos (by omega : k < (processChunksAux ([] : AccState) pre).1.length)] at hr
    have hmem : r ∈ (processChunksAux ([] : AccState) pre).1 :=
      List.getElem?_mem hr
    exact hnf.2 r hmem cand hcand
  · intro r hr
    rw [processChunks, hsplit.1, hterm1] at hr
    rw [List.getElem?_append_right (le_of_eq hlenS)] at hr
    rw [hlenS] at hr
    simp only [Nat.sub_self, List.getElem?_cons_zero, Option.some_inj] at hr
    subst hr
    rw [hconv.2, haccT, accumulated_state_eq, emitFunctionCallParts_fst,
      List.filter_map, List.map_map]
    rw [observedIndices]
    rfl
  · exact List.Nodup.filter _ (firstDedup_nodup _)
  · intro i
    exact specEntryFor_arguments _ i
  · rw [processChunks, hsplit.2, hterm2]
    exact hconv.1

/-- Chunk carrying a tool-call delta with an id but no function name. -/
def c1chunkA : StreamChunk :=
  { choices := [{ toolCallDeltas := some [{ index := some 0, id := some "t1" }] }] }

/-- Terminal chunk. -/
def c1chunkB : StreamChunk :=
  { choices := [{ finish_reason := some "tool_calls" }] }

/-- Claim C1 counterexample: one distinct index (0) is observed in the
stream's `tool_calls` deltas, but the terminal canonical chunk carries no
tool-call part at all — the accumulated entry never received a truthy
function name, so it is skipped; the claim's "tool-call parts number
exactly the count of distinct indices" fails. -/
theorem c1_counterexample :
    observedIndices [c1chunkA, c1chunkB] = [0] ∧
    (processChunks [c1chunkA, c1chunkB]).1.map
        (fun r => r.candidates.map (fun cand => cand.parts.filter isFunctionCallPart)) =
      [[[]], [[]]] := by
  constructor
  · simp [observedIndices, deltasOfStream, chunkDeltas, deltaIndex, firstDedup,
      c1chunkA, c1chunkB]
  · simp [processChunks, processChunksAux, convertStreamChunkToGeminiFormat, truthyStr,
      accUpdate, applyDelta, deltaIndex, setAssocI, lookupAssocI, emitFunctionCallParts,
      emitStep, convertFinishReason, isFunctionCallPart, chunkDeltas, c1chunkA, c1chunkB]

/-- Scenario S3, delta 1: index 0 with id and name. -/
def s3delta1 : ToolCallDelta :=
  { index := some 0, id := some "t1", name := some "runShell" }

/-- Scenario S3, delta 2: first arguments fragment. -/
def s3delta2 : ToolCallDelta := { index := some 0, argumentsFrag := some "\x7b\"cmd\":" }

/-- Scenario S3, delta 3: second arguments fragment. -/
def s3delta3 : ToolCallDelta := { index := some 0, argumentsFrag := some "\"ls\"\x7d" }

/-- Scenario S3, chunk 1. -/
def s3chunk1 : StreamChunk := { choices := [{ toolCallDeltas := some [s3delta1] }] }

/-- Scenario S3, chunk 2. -/
def s3chunk2 : StreamChunk := { choices := [{ toolCallDeltas := some [s3delta2] }] }

/-- Scenario S3, chunk 3. -/
def s3chunk3 : StreamChunk := { choices := [{ toolCallDeltas := some [s3delta3] }] }

/-- Scenario S3, terminal chunk. -/
def s3terminal : StreamChunk := { choices := [{ finish_reason := some "tool_calls" }] }

/-- Scenario S3 prefix. -/
def s3pre : List StreamChunk := [s3chunk1, s3chunk2, s3chunk3]

/-- Claim C1 witness: `c1_theorem` instantiated on the S3 reassembly
scenario; the terminal chunk emits exactly the one reassembled call with
the arguments parsed from the concatenated fragments. -/
theorem c1_witness :
    (∀ x ∈ s3pre, truthyStr (x.choices.head?.bind (·.finish_reason)) = false) ∧
    truthyStr (s3terminal.choices.head?.bind (·.finish_reason)) = true ∧
    (processChunks (s3pre ++ [s3terminal])).1.length = s3pre.length + 1 ∧
    (processChunks (s3pre ++ [s3terminal])).2.1 = [] ∧
    (∀ r, (processChunks (s3pre ++ [s3terminal])).1[s3pre.length]? = some r →
      r.candidates.map (fun cand => cand.parts.filter isFunctionCallPart) =
        [[GPart.functionCall (some "t1") (some "runShell")
            (some (.obj [("cmd", .str "ls")]))]]) := by
  have h1 : ∀ x ∈ s3pre, truthyStr (x.choices.head?.bind (·.finish_reason)) = false := by
    decide
  have h2 : truthyStr (s3terminal.choices.head?.bind (·.finish_reason)) = true := by
    decide
  have h := c1_theorem s3pre s3terminal h1 h2
  refine ⟨h1, h2, h.1, h.2.2.2.2.2, ?_⟩
  intro r hr
  rw [h.2.2.1 r hr]
  have hobs : observedIndices (s3pre ++ [s3terminal]) = [0] := by
    simp [observedIndices, deltasOfStream, chunkDeltas, deltaIndex, firstDedup,
      s3pre, s3chunk1, s3chunk2, s3chunk3, s3terminal, s3delta1, s3delta2, s3delta3]
  have hspec : specEntryFor (deltasOfStream (s3pre ++ [s3terminal])) 0 =
      { id := some "t1", name := some "runShell",
        arguments := "\x7b\"cmd\":\"ls\"\x7d" } := by decide
  have harg : argsFromBuffer "\x7b\"cmd\":\"ls\"\x7d" =
      .obj [("cmd", .str "ls")] := by rfl
  rw [hobs]
  simp [hspec, truthyStr, harg]
